import Mathlib

/-!
# Photic: Kalman filter and rocket tracker

A shallow embedding of `KalmanFilter.cpp` and `RocketTracker.cpp`.

Numbers: `Real_t` is a C++ `float`; here it is the exact rationals, so every
statement below is a statement about the arithmetic the code performs, without
rounding or overflow.  The one place where the code leaves the real numbers is
the 2×2 inversion of a matrix of determinant zero: it divides by zero and its
result holds `inf`/`NaN`.  The embedding has no number for these: such a result
is `none`, and the members `P`, `K` and `E` of the filter, which the code
computes from it, are optional matrices (`none`: every entry is `inf` or `NaN`;
any sum, difference or product with such a matrix is such a matrix again).

State: the C++ objects are mutated in place; here every operation takes the
object and returns the new object (and the returned value, if any).
-/

namespace Photic

/-! ## Types.hpp -/

/-- Denotes a real number (`typedef float Real_t`), embedded as an exact rational. -/
abbrev Real_t := ℚ

/-! ## The matrix engine (Matrix.hpp, MathUtils.hpp) -/

/-- Modelled from the spec: `Matrix.hpp` is missing from the sources. A dense
`R`×`C` grid of real numbers with fixed dimensions, read and written by
(row, column); the storage order of the flat array is abstracted away. -/
structure Matrix (R C : Nat) where
  /-- The element at (row, column). -/
  mData : Fin R → Fin C → Real_t

namespace Matrix

variable {R C K : Nat}

/-- Equality is exact elementwise comparison. -/
instance : DecidableEq (Matrix R C) := fun A B =>
  decidable_of_iff (A.mData = B.mData)
    ⟨fun h => by cases A; cases B; cases h; rfl, fun h => by rw [h]⟩

/-- Modelled from the spec: fill-with-scalar construction and `fill (v)`. -/
def fill (v : Real_t) : Matrix R C := ⟨fun _ _ => v⟩

/-- Modelled from the spec: default construction is all-zero. -/
def zero : Matrix R C := fill 0

/-- Modelled from the spec: element write `M (i, j) = v`. -/
def set (M : Matrix R C) (i : Fin R) (j : Fin C) (v : Real_t) : Matrix R C :=
  ⟨fun r c => if r = i ∧ c = j then v else M.mData r c⟩

/-- Modelled from the spec: elementwise addition. -/
def add (A B : Matrix R C) : Matrix R C := ⟨fun i j => A.mData i j + B.mData i j⟩

/-- Modelled from the spec: elementwise subtraction. -/
def sub (A B : Matrix R C) : Matrix R C := ⟨fun i j => A.mData i j - B.mData i j⟩

/-- Modelled from the spec: the standard matrix product, (R×K)·(K×C) → R×C. -/
def mul (A : Matrix R K) (B : Matrix K C) : Matrix R C :=
  ⟨fun i j => ∑ k : Fin K, A.mData i k * B.mData k j⟩

/-- Modelled from the spec: transpose, R×C → C×R. -/
def transpose (A : Matrix R C) : Matrix C R := ⟨fun i j => A.mData j i⟩

instance : Add (Matrix R C) := ⟨add⟩
instance : Sub (Matrix R C) := ⟨sub⟩
instance : HMul (Matrix R K) (Matrix K C) (Matrix R C) := ⟨mul⟩

end Matrix

/-- A 2-vector is a 2×1 matrix. -/
abbrev Vector2_t := Matrix 2 1
/-- A 3-vector is a 3×1 matrix. -/
abbrev Vector3_t := Matrix 3 1
/-- A 4-vector is a 4×1 matrix. -/
abbrev Vector4_t := Matrix 4 1

/-- Modelled from the spec: the single-coordinate index `v[i]` of a vector. -/
def Matrix.idx {N : Nat} (v : Matrix N 1) (i : Fin N) : Real_t := v.mData i 0

namespace MathUtils

/-- Modelled from the spec: convenience constructor of a 2-vector. -/
def makeVector2 (a b : Real_t) : Vector2_t :=
  ⟨fun i _ => if i = 0 then a else b⟩

/-- Modelled from the spec: convenience constructor of a 3-vector. -/
def makeVector3 (a b c : Real_t) : Vector3_t :=
  ⟨fun i _ => if i = 0 then a else if i = 1 then b else c⟩

/-- Modelled from the spec: convenience constructor of a 2×2 matrix, row by row. -/
def makeMatrix2 (a b c d : Real_t) : Matrix 2 2 :=
  ⟨fun i j => if i = 0 then (if j = 0 then a else b) else (if j = 0 then c else d)⟩

/-- Modelled from the spec: convenience constructor of a 3×3 matrix, row by row. -/
def makeMatrix3 (a b c d e f g h k : Real_t) : Matrix 3 3 :=
  ⟨fun i j =>
    if i = 0 then (if j = 0 then a else if j = 1 then b else c)
    else if i = 1 then (if j = 0 then d else if j = 1 then e else f)
    else (if j = 0 then g else if j = 1 then h else k)⟩

/-- The determinant `M00·M11 − M01·M10` that the 2×2 inversion divides by. -/
def det2 (M : Matrix 2 2) : Real_t :=
  M.mData 0 0 * M.mData 1 1 - M.mData 0 1 * M.mData 1 0

/-- Modelled from the spec: the closed-form 2×2 inversion
`inv(M) = 1/det(M) · [[M11, −M01], [−M10, M00]]`, with no singularity check. With a zero
determinant the code computes `1/0 = inf` and every entry of its result is `inf` or `NaN`
(`inf·0`): the result is `none`. -/
def invertMatrix2 (M : Matrix 2 2) : Option (Matrix 2 2) :=
  if det2 M = 0 then none
  else some (makeMatrix2 (1 / det2 M * M.mData 1 1) (1 / det2 M * -M.mData 0 1)
              (1 / det2 M * -M.mData 1 0) (1 / det2 M * M.mData 0 0))

end MathUtils

/-! ## KalmanFilter.cpp -/

/-- The members of `KalmanFilter`. The members `mP`, `mK` and `mE` are computed through the
2×2 inversion; each is `none` when its entries are `inf`/`NaN`. -/
structure KalmanFilter where
  /-- State transition matrix. -/
  mA : Matrix 3 3
  /-- Process noise covariance. -/
  mQ : Matrix 3 3
  /-- State → observation map. -/
  mH : Matrix 2 3
  /-- Measurement noise covariance. -/
  mR : Matrix 2 2
  /-- Error covariance. -/
  mP : Option (Matrix 3 3)
  /-- Kalman gain. -/
  mK : Option (Matrix 3 2)
  /-- State estimate. -/
  mE : Option Vector3_t

namespace KalmanFilter

/-- The constructor `KalmanFilter::KalmanFilter ()`. The members `mK` and `mE`
are not assigned by the constructor body; they are default-constructed
matrices (all-zero). -/
def new : KalmanFilter :=
  { mA := MathUtils.makeMatrix3 1 0 0 0 1 0 0 0 1
    mQ := Matrix.fill 0
    mH := ((Matrix.fill 0 : Matrix 2 3).set 0 0 1).set 1 2 1
    mR := Matrix.fill 0
    mP := some (MathUtils.makeMatrix3 1 0 0 0 1 0 0 0 1)
    mK := some Matrix.zero
    mE := some Matrix.zero }

/-- The method `setDeltaT (kDt)`. -/
def setDeltaT (kf : KalmanFilter) (kDt : Real_t) : KalmanFilter :=
  { kf with mA := ((kf.mA.set 0 1 kDt).set 0 2 (0.5 * kDt * kDt)).set 1 2 kDt }

/-- The method `setSensorVariance (kAltVar, kAccelVar)`. -/
def setSensorVariance (kf : KalmanFilter) (kAltVar kAccelVar : Real_t) : KalmanFilter :=
  { kf with mR := (kf.mR.set 0 0 kAltVar).set 1 1 kAccelVar }

/-- The method `setInitialState (kAlt, kVel, kAccel)`. -/
def setInitialState (kf : KalmanFilter) (kAlt kVel kAccel : Real_t) : KalmanFilter :=
  { kf with mE := some (MathUtils.makeVector3 kAlt kVel kAccel) }

/-- The private method `computeKg ()`: one gain/covariance step. When `mP` holds `inf`/`NaN`,
or the inversion of `x` does, so do the `mK` and the `mP` the step computes from them. -/
def computeKgStep (kf : KalmanFilter) : KalmanFilter :=
  match kf.mP with
  | none => { kf with mK := none, mP := none }
  | some mP0 =>
    let x : Matrix 2 2 := kf.mH * mP0 * kf.mH.transpose + kf.mR
    match MathUtils.invertMatrix2 x with
    | none => { kf with mK := none, mP := none }
    | some xInv =>
      let mK : Matrix 3 2 := mP0 * kf.mH.transpose * xInv
      let i : Matrix 3 3 := MathUtils.makeMatrix3 1 0 0 0 1 0 0 0 1
      let mP : Matrix 3 3 := (i - mK * kf.mH) * mP0
      let mP : Matrix 3 3 := kf.mA * mP * kf.mA.transpose + kf.mQ
      { kf with mK := some mK, mP := some mP }

/-- The loop `for (i = 0; i < kIterations; i++) this->computeKg ()`. -/
def computeKgLoop : Nat → KalmanFilter → KalmanFilter
  | 0, kf => kf
  | n + 1, kf => computeKgLoop n (computeKgStep kf)

/-- The public method `computeKg (kIterations)`. -/
def computeKg (kf : KalmanFilter) (kIterations : Nat) : KalmanFilter :=
  computeKgLoop kIterations { kf with mP := some (MathUtils.makeMatrix3 1 0 0 0 1 0 0 0 1) }

/-- The method `filter (kAlt, kAccel)`: the returned vector and the filter after the call.
When `mE` or `mK` holds `inf`/`NaN`, so does the new estimate. -/
def filter (kf : KalmanFilter) (kAlt kAccel : Real_t) : Option Vector3_t × KalmanFilter :=
  let observation : Vector2_t := MathUtils.makeVector2 kAlt kAccel
  let estNewF : Option Vector3_t :=
    match kf.mE, kf.mK with
    | some mE, some mK =>
      let estNew : Vector3_t := kf.mA * mE
      some (estNew + mK * (observation - kf.mH * estNew))
    | _, _ => none
  let kf1 : KalmanFilter := { kf with mE := estNewF }
  (kf1.mE, kf1)

end KalmanFilter

/-! ## The gain/covariance step in the words of the specification -/

/-- The `n`×`n` identity matrix. -/
def Matrix.identity (n : Nat) : Matrix n n := ⟨fun i j => if i = j then 1 else 0⟩

/-- The gain/covariance step as the specification words it, on the pair `(P, K)`:
`S = H·P·Hᵗ + R`; `K = P·Hᵗ·S⁻¹`; `P = (I − K·H)·P`; `P = A·P·Aᵗ + Q`. The 2×2 inversion
inherits its behaviour on a singular `S`: then, and when `P` already holds `inf`/`NaN`, the
new `P` and `K` are `none`. -/
def specGainCovStep (A Q : Matrix 3 3) (H : Matrix 2 3) (R : Matrix 2 2)
    (PK : Option (Matrix 3 3) × Option (Matrix 3 2)) :
    Option (Matrix 3 3) × Option (Matrix 3 2) :=
  match PK.1 with
  | none => (none, none)
  | some P =>
    let S : Matrix 2 2 := H * P * H.transpose + R
    match MathUtils.invertMatrix2 S with
    | none => (none, none)
    | some Sinv =>
      let K : Matrix 3 2 := P * H.transpose * Sinv
      let P1 : Matrix 3 3 := (Matrix.identity 3 - K * H) * P
      let P2 : Matrix 3 3 := A * P1 * A.transpose + Q
      (some P2, some K)

/-! ## Sequences of public calls on a filter -/

/-- A call of one of the public methods of `KalmanFilter`, with its arguments. -/
inductive Op where
  | setDeltaT (kDt : Real_t)
  | setSensorVariance (kAltVar kAccelVar : Real_t)
  | setInitialState (kAlt kVel kAccel : Real_t)
  | computeKg (kIterations : Nat)
  | filter (kAlt kAccel : Real_t)

/-- The filter after one call. -/
def Op.apply (kf : KalmanFilter) : Op → KalmanFilter
  | .setDeltaT kDt => kf.setDeltaT kDt
  | .setSensorVariance kAltVar kAccelVar => kf.setSensorVariance kAltVar kAccelVar
  | .setInitialState kAlt kVel kAccel => kf.setInitialState kAlt kVel kAccel
  | .computeKg kIterations => kf.computeKg kIterations
  | .filter kAlt kAccel => (kf.filter kAlt kAccel).2

/-- The filter reached from construction by a sequence of calls, first call first. -/
def runOps (ops : List Op) : KalmanFilter := ops.foldl Op.apply KalmanFilter.new

/-- The arguments of the most recent `setSensorVariance` call after `ops` was run from a
state whose latest variances were `v`. -/
def lastVarianceFrom (v : Real_t × Real_t) : List Op → Real_t × Real_t
  | [] => v
  | .setSensorVariance kAltVar kAccelVar :: ops => lastVarianceFrom (kAltVar, kAccelVar) ops
  | _ :: ops => lastVarianceFrom v ops

/-- The arguments of the most recent `setSensorVariance` call in `ops`, zero if there is none. -/
def lastVariance (ops : List Op) : Real_t × Real_t := lastVarianceFrom (0, 0) ops

/-! ## The sensor collaborators (IMUInterface.cpp, BarometerInterface, History) -/

/-- The readings held by an `IMUInterface` (its member `mData`). -/
structure ImuData where
  /-- Rocket-frame acceleration. -/
  vecAccel : Vector3_t
  /-- Magnetic field. -/
  vecMag : Vector3_t
  /-- Orientation as Euler angles. -/
  orientEuler : Vector3_t
  /-- Orientation as a quaternion. -/
  orientQuat : Vector4_t

/-- An `IMUInterface`: the readings it holds, and the readings the device will deliver at
its next `run ()` calls (`pending 0` first). -/
structure IMUInterface where
  /-- The readings last taken. -/
  mData : ImuData
  /-- The readings of the future `run ()` calls. -/
  pending : Nat → ImuData

namespace IMUInterface

/-- Modelled from the spec: `run ()` is implemented by the device driver; it refreshes the
readings. -/
def run (imu : IMUInterface) : IMUInterface :=
  { mData := imu.pending 0, pending := fun n => imu.pending (n + 1) }

/-- The getter `getAccelerationVector ()`. -/
def getAccelerationVector (imu : IMUInterface) : Vector3_t := imu.mData.vecAccel

/-- The getter `getMagneticVector ()`. -/
def getMagneticVector (imu : IMUInterface) : Vector3_t := imu.mData.vecMag

/-- The getter `getEulerOrientation ()`. -/
def getEulerOrientation (imu : IMUInterface) : Vector3_t := imu.mData.orientEuler

/-- The getter `getQuaternionOrientation ()`. -/
def getQuaternionOrientation (imu : IMUInterface) : Vector4_t := imu.mData.orientQuat

/-- The read `getAccelerationVectorPtr ()[i]` through the raw pointer `&mData.vecAccel[0]`,
for an index inside the vector. -/
def getAccelerationVectorPtr (imu : IMUInterface) (i : Fin 3) : Real_t :=
  imu.mData.vecAccel.idx i

end IMUInterface

/-- Modelled from the spec: `BarometerInterface` is missing from the sources. It holds the
altitude last read, and the altitudes the device will deliver at its next `run ()` calls. -/
structure BarometerInterface where
  /-- The altitude last read. -/
  mAltitude : Real_t
  /-- The altitudes of the future `run ()` calls. -/
  pending : Nat → Real_t

namespace BarometerInterface

/-- Modelled from the spec: `run ()` refreshes the reading. -/
def run (b : BarometerInterface) : BarometerInterface :=
  { mAltitude := b.pending 0, pending := fun n => b.pending (n + 1) }

/-- Modelled from the spec: `getAltitude ()` returns the altitude last read. -/
def getAltitude (b : BarometerInterface) : Real_t := b.mAltitude

end BarometerInterface

/-- Modelled from the spec: `History.hpp` is missing from the sources. A rolling buffer of
at most `N` samples, oldest first. -/
structure History (N : Nat) where
  /-- The samples held, oldest first. -/
  samples : List Real_t

namespace History

variable {N : Nat}

/-- Modelled from the spec: a new buffer is empty. -/
def empty : History N := ⟨[]⟩

/-- Modelled from the spec: `atCapacity ()` holds when the buffer holds `N` samples. -/
def atCapacity (h : History N) : Bool := decide (N ≤ h.samples.length)

/-- Modelled from the spec: `add (value)` appends a sample, dropping the oldest one when
the buffer is at capacity. -/
def add (h : History N) (v : Real_t) : History N :=
  if h.atCapacity then ⟨h.samples.tail ++ [v]⟩ else ⟨h.samples ++ [v]⟩

end History

/-- The functions of the repository whose code is missing and which the specification
leaves open: the statistics of `History` (`getMean`, `getStdev`) as functions of the samples
held, and `MathUtils::rotateVector`. -/
structure Collaborators where
  /-- The sample mean `History::getMean ()`. -/
  getMean : List Real_t → Real_t
  /-- The sample standard deviation `History::getStdev ()`. -/
  getStdev : List Real_t → Real_t
  /-- The rotation `MathUtils::rotateVector (quaternion, vector)`. -/
  rotateVector : Vector4_t → Vector3_t → Vector3_t

/-! ## RocketTracker.cpp -/

/-- The configuration `RocketTracker::Config_t`; a null pointer is `none`. -/
structure Config_t where
  /-- IMU interface. -/
  pImu : Option IMUInterface
  /-- Barometer interface. -/
  pBarometer : Option BarometerInterface
  /-- Timestep in seconds. -/
  dt : Real_t
  /-- Index of the vertical component of the rotated acceleration. -/
  vertAccelIdx : Nat
  /-- Kalman gain calculation iterations. -/
  kgIterations : Nat

/-- The members of a constructed `RocketTracker`. The two sensors are the objects the
pointers `mPImu` and `mPBarometer` point to. -/
structure RocketTracker where
  /-- The IMU pointed to. -/
  mPImu : IMUInterface
  /-- The barometer pointed to. -/
  mPBarometer : BarometerInterface
  /-- Index of the vertical acceleration, inside the 3-vector. -/
  mVertAccelIdx : Fin 3
  /-- Launchpad altitude. -/
  mLpAltitude : Real_t
  /-- The Kalman filter. -/
  mKf : KalmanFilter

namespace RocketTracker

/-- The function `getDefaultConfig ()`. -/
def getDefaultConfig : Config_t :=
  { pImu := none, pBarometer := none, dt := 0.1, vertAccelIdx := 2, kgIterations := 50 }

/-- Number of readings in a sensor variance sample. -/
def numSamples : Nat := 1000

/-- The loop `while (!altitudeReadings.atCapacity ())` of `profileSensors`. -/
def sampleAltitude {N : Nat} (altitudeReadings : History N) (baro : BarometerInterface) :
    History N × BarometerInterface :=
  if hc : altitudeReadings.atCapacity then (altitudeReadings, baro)
  else
    let baro1 := baro.run
    sampleAltitude (altitudeReadings.add baro1.getAltitude) baro1
termination_by N - altitudeReadings.samples.length
decreasing_by
  simp only [History.atCapacity, decide_eq_true_eq, not_le] at hc
  simp only [History.add, History.atCapacity, decide_eq_true_eq, not_le.mpr hc, if_false,
    List.length_append, List.length_singleton, Bool.false_eq_true]
  omega

/-- The loop `while (!accelReadings.atCapacity ())` of `profileSensors`. -/
def sampleAccel {N : Nat} (accelReadings : History N) (imu : IMUInterface)
    (vertAccelIdx : Fin 3) : History N × IMUInterface :=
  if hc : accelReadings.atCapacity then (accelReadings, imu)
  else
    let imu1 := imu.run
    let vertAccel := imu1.getAccelerationVectorPtr vertAccelIdx
    sampleAccel (accelReadings.add vertAccel) imu1 vertAccelIdx
termination_by N - accelReadings.samples.length
decreasing_by
  simp only [History.atCapacity, decide_eq_true_eq, not_le] at hc
  simp only [History.add, History.atCapacity, decide_eq_true_eq, not_le.mpr hc, if_false,
    List.length_append, List.length_singleton, Bool.false_eq_true]
  omega

/-- The values `profileSensors` returns through its reference parameters. -/
structure Profile where
  /-- The value of `kBaroVarRet`. -/
  baroVar : Real_t
  /-- The value of `kImuVarRet`. -/
  imuVar : Real_t
  /-- The value of `kLpAltRet`. -/
  lpAlt : Real_t

/-- The method `profileSensors`, on the members it reads: the profile, and the two sensors
after the sampling. -/
def profileSensors (x : Collaborators) (imu : IMUInterface) (baro : BarometerInterface)
    (vertAccelIdx : Fin 3) : Profile × IMUInterface × BarometerInterface :=
  let altitudeLoop := sampleAltitude (History.empty : History numSamples) baro
  let altitudeReadings := altitudeLoop.1
  let baroStdev := x.getStdev altitudeReadings.samples
  let kBaroVarRet := baroStdev * baroStdev
  let kLpAltRet := x.getMean altitudeReadings.samples
  let accelLoop := sampleAccel (History.empty : History numSamples) imu vertAccelIdx
  let accelReadings := accelLoop.1
  let imuStdev := x.getStdev accelReadings.samples
  let kImuVarRet := imuStdev * imuStdev
  ({ baroVar := kBaroVarRet, imuVar := kImuVarRet, lpAlt := kLpAltRet }, accelLoop.2,
    altitudeLoop.2)

/-- The constructor `RocketTracker (kConfig)`. The source dereferences both pointers and
indexes the acceleration vector without a check; with a null pointer or an index outside
the vector its behaviour is undefined, and the embedding yields `none`. -/
def new (x : Collaborators) (kConfig : Config_t) : Option RocketTracker :=
  match kConfig.pImu, kConfig.pBarometer with
  | some imu, some baro =>
    if h : kConfig.vertAccelIdx < 3 then
      let r := profileSensors x imu baro ⟨kConfig.vertAccelIdx, h⟩
      let mKf := KalmanFilter.new
      let mKf := mKf.setDeltaT kConfig.dt
      let mKf := mKf.setInitialState r.1.lpAlt 0 0
      let mKf := mKf.setSensorVariance r.1.baroVar r.1.imuVar
      let mKf := mKf.computeKg kConfig.kgIterations
      some { mPImu := r.2.1, mPBarometer := r.2.2, mVertAccelIdx := ⟨kConfig.vertAccelIdx, h⟩,
             mLpAltitude := r.1.lpAlt, mKf := mKf }
    else none
  | _, _ => none

/-- The sensors of `track` after `if (kRunSensors) { mPImu->run (); mPBarometer->run (); }`. -/
def runSensors (t : RocketTracker) (kRunSensors : Bool) : IMUInterface × BarometerInterface :=
  if kRunSensors then (t.mPImu.run, t.mPBarometer.run) else (t.mPImu, t.mPBarometer)

/-- The two arguments `(altitude, accelVertical)` that `track` passes to `mKf.filter`. -/
def trackObservation (x : Collaborators) (t : RocketTracker) (kRunSensors : Bool) :
    Real_t × Real_t :=
  let s := runSensors t kRunSensors
  let quatOrient := s.1.getQuaternionOrientation
  let vecAccelRocket := s.1.getAccelerationVector
  let vecAccelWorld := x.rotateVector quatOrient vecAccelRocket
  let accelVertical := vecAccelWorld.idx t.mVertAccelIdx
  let altitude := s.2.getAltitude
  let altitude := if altitude < t.mLpAltitude then t.mLpAltitude else altitude
  (altitude, accelVertical)

/-- The method `track (kRunSensors)`: the returned vector and the tracker after the call. -/
def track (x : Collaborators) (t : RocketTracker) (kRunSensors : Bool) :
    Option Vector3_t × RocketTracker :=
  let s := runSensors t kRunSensors
  let obs := trackObservation x t kRunSensors
  let r := t.mKf.filter obs.1 obs.2
  (r.1, { t with mPImu := s.1, mPBarometer := s.2, mKf := r.2 })

end RocketTracker

/-! ## Predicates and sample inputs used in the statements -/

/-- The diagonal of `A` is one and the entries below it are zero. -/
def UnitUpper (A : Matrix 3 3) : Prop :=
  A.mData 0 0 = 1 ∧ A.mData 1 1 = 1 ∧ A.mData 2 2 = 1 ∧
    A.mData 1 0 = 0 ∧ A.mData 2 0 = 0 ∧ A.mData 2 1 = 0

namespace Example

/-- A barometer that reads 100 at every `run ()`. -/
def barometer : BarometerInterface := { mAltitude := 100, pending := fun _ => 100 }

/-- An IMU at rest: every reading is zero. -/
def imu : IMUInterface :=
  { mData := ⟨Matrix.zero, Matrix.zero, Matrix.zero, Matrix.zero⟩
    pending := fun _ => ⟨Matrix.zero, Matrix.zero, Matrix.zero, Matrix.zero⟩ }

/-- Collaborators with the arithmetic mean, a standard deviation that is always zero and a
rotation that leaves the vector as it is. -/
def collaborators : Collaborators :=
  { getMean := fun l => l.sum / l.length
    getStdev := fun _ => 0
    rotateVector := fun _ v => v }

/-- A configuration with both sensors present and a negative timestep. -/
def negativeDtConfig : Config_t :=
  { pImu := some imu, pBarometer := some barometer, dt := -1, vertAccelIdx := 2,
    kgIterations := 50 }

end Example

/-! ## Quantities of the warm-up and of repeated filtering, and matrix predicates -/

namespace KalmanFilter

/-- The filter after `ticks` successive calls `filter (kAlt, kAccel)` with the same
observation. -/
def filterTicks (kf : KalmanFilter) (kAlt kAccel : Real_t) : Nat → KalmanFilter
  | 0 => kf
  | ticks + 1 => ((filterTicks kf kAlt kAccel ticks).filter kAlt kAccel).2

/-- The matrix `x = mH * mP * mH.transpose () + mR` that the private `computeKg ()` passes
to the 2×2 inversion. -/
def innovationCovariance (kf : KalmanFilter) : Option (Matrix 2 2) :=
  match kf.mP with
  | none => none
  | some mP0 => some (kf.mH * mP0 * kf.mH.transpose + kf.mR)

/-- The value `(i - mK * mH) * mP` that the private `computeKg ()` assigns to `mP` before
it propagates it through `mA`. -/
def updatedCovariance (kf : KalmanFilter) : Option (Matrix 3 3) :=
  match kf.mP with
  | none => none
  | some mP0 =>
    match MathUtils.invertMatrix2 (kf.mH * mP0 * kf.mH.transpose + kf.mR) with
    | none => none
    | some xInv =>
      some ((MathUtils.makeMatrix3 1 0 0 0 1 0 0 0 1 - mP0 * kf.mH.transpose * xInv * kf.mH) *
        mP0)

end KalmanFilter

namespace Matrix

/-- The matrix is symmetric: it is its own transpose. -/
def IsSymm {n : Nat} (M : Matrix n n) : Prop := M.transpose = M

/-- The quadratic form `vᵗ·M·v` of a square matrix at a vector. -/
def quadForm {n : Nat} (M : Matrix n n) (v : Matrix n 1) : Real_t :=
  (v.transpose * M * v).mData 0 0

/-- The matrix is symmetric positive semidefinite. -/
def PosSemidef {n : Nat} (M : Matrix n n) : Prop :=
  M.IsSymm ∧ ∀ v : Matrix n 1, 0 ≤ M.quadForm v

/-- The vector with `1` at coordinate `i` and `0` elsewhere. -/
def unitVector {n : Nat} (i : Fin n) : Matrix n 1 := ⟨fun r _ => if r = i then 1 else 0⟩

end Matrix

/-! ## Basic lemmas of the engine -/

namespace Matrix

variable {R C K : Nat}

@[ext]
theorem ext {A B : Matrix R C} (h : ∀ i j, A.mData i j = B.mData i j) : A = B := by
  cases A; cases B
  congr
  funext i j
  exact h i j

@[simp] theorem add_mData (A B : Matrix R C) (i : Fin R) (j : Fin C) :
    (A + B).mData i j = A.mData i j + B.mData i j := rfl

@[simp] theorem sub_mData (A B : Matrix R C) (i : Fin R) (j : Fin C) :
    (A - B).mData i j = A.mData i j - B.mData i j := rfl

@[simp] theorem mul_mData (A : Matrix R K) (B : Matrix K C) (i : Fin R) (j : Fin C) :
    (A * B).mData i j = ∑ k : Fin K, A.mData i k * B.mData k j := rfl

@[simp] theorem transpose_mData (A : Matrix R C) (i : Fin C) (j : Fin R) :
    A.transpose.mData i j = A.mData j i := rfl

@[simp] theorem fill_mData (v : Real_t) (i : Fin R) (j : Fin C) :
    (fill v : Matrix R C).mData i j = v := rfl

@[simp] theorem zero_mData (i : Fin R) (j : Fin C) : (zero : Matrix R C).mData i j = 0 := rfl

@[simp] theorem set_mData (M : Matrix R C) (i r : Fin R) (j c : Fin C) (v : Real_t) :
    (M.set i j v).mData r c = if r = i ∧ c = j then v else M.mData r c := rfl

@[simp] theorem identity_mData (n : Nat) (i j : Fin n) :
    (identity n).mData i j = if i = j then 1 else 0 := rfl

end Matrix

namespace MathUtils

@[simp] theorem makeVector2_mData (a b : Real_t) (i : Fin 2) (j : Fin 1) :
    (makeVector2 a b).mData i j = if i = 0 then a else b := rfl

@[simp] theorem makeVector3_mData (a b c : Real_t) (i : Fin 3) (j : Fin 1) :
    (makeVector3 a b c).mData i j = if i = 0 then a else if i = 1 then b else c := rfl

@[simp] theorem makeMatrix2_mData (a b c d : Real_t) (i j : Fin 2) :
    (makeMatrix2 a b c d).mData i j =
      if i = 0 then (if j = 0 then a else b) else (if j = 0 then c else d) := rfl

@[simp] theorem makeMatrix3_mData (a b c d e f g h k : Real_t) (i j : Fin 3) :
    (makeMatrix3 a b c d e f g h k).mData i j =
      if i = 0 then (if j = 0 then a else if j = 1 then b else c)
      else if i = 1 then (if j = 0 then d else if j = 1 then e else f)
      else (if j = 0 then g else if j = 1 then h else k) := rfl

/-- The literal 3×3 matrix the code builds is the identity matrix. -/
theorem makeMatrix3_identity : makeMatrix3 1 0 0 0 1 0 0 0 1 = Matrix.identity 3 := by
  ext i j
  fin_cases i <;> fin_cases j <;> simp

/-- With a non-zero determinant the inversion returns the closed form. -/
theorem invertMatrix2_of_det_ne_zero (M : Matrix 2 2) (h : det2 M ≠ 0) :
    invertMatrix2 M =
      some (makeMatrix2 (1 / det2 M * M.mData 1 1) (1 / det2 M * -M.mData 0 1)
        (1 / det2 M * -M.mData 1 0) (1 / det2 M * M.mData 0 0)) := by
  simp [invertMatrix2, h]

/-- With a zero determinant the inversion has no result among the real matrices. -/
theorem invertMatrix2_of_det_eq_zero (M : Matrix 2 2) (h : det2 M = 0) :
    invertMatrix2 M = none := by
  simp [invertMatrix2, h]

/-- A result of the inversion comes from a non-zero determinant and is the closed form. -/
theorem invertMatrix2_eq_some {M Mi : Matrix 2 2} (h : invertMatrix2 M = some Mi) :
    det2 M ≠ 0 ∧
      Mi = makeMatrix2 (1 / det2 M * M.mData 1 1) (1 / det2 M * -M.mData 0 1)
        (1 / det2 M * -M.mData 1 0) (1 / det2 M * M.mData 0 0) := by
  by_cases hd : det2 M = 0
  · rw [invertMatrix2_of_det_eq_zero M hd] at h
    exact absurd h (by simp)
  · rw [invertMatrix2_of_det_ne_zero M hd] at h
    exact ⟨hd, (Option.some.inj h).symm⟩

end MathUtils

namespace KalmanFilter

/-- One step of the code is the specification's step on `(P, K)`. -/
theorem computeKgStep_spec (kf : KalmanFilter) :
    ((computeKgStep kf).mP, (computeKgStep kf).mK) =
      specGainCovStep kf.mA kf.mQ kf.mH kf.mR (kf.mP, kf.mK) := by
  cases hP : kf.mP with
  | none => simp [computeKgStep, specGainCovStep, hP]
  | some P =>
    cases hI : MathUtils.invertMatrix2 (kf.mH * P * kf.mH.transpose + kf.mR) with
    | none => simp [computeKgStep, specGainCovStep, hP, hI]
    | some Si => simp [computeKgStep, specGainCovStep, hP, hI, MathUtils.makeMatrix3_identity]

/-- One step changes neither the model matrices nor the state estimate. -/
theorem computeKgStep_frame (kf : KalmanFilter) :
    (computeKgStep kf).mA = kf.mA ∧ (computeKgStep kf).mQ = kf.mQ ∧
      (computeKgStep kf).mH = kf.mH ∧ (computeKgStep kf).mR = kf.mR ∧
      (computeKgStep kf).mE = kf.mE := by
  cases hP : kf.mP with
  | none => simp [computeKgStep, hP]
  | some P =>
    cases hI : MathUtils.invertMatrix2 (kf.mH * P * kf.mH.transpose + kf.mR) with
    | none => simp [computeKgStep, hP, hI]
    | some Si => simp [computeKgStep, hP, hI]

/-- The loop changes neither the model matrices nor the state estimate. -/
theorem computeKgLoop_frame (n : Nat) (kf : KalmanFilter) :
    (computeKgLoop n kf).mA = kf.mA ∧ (computeKgLoop n kf).mQ = kf.mQ ∧
      (computeKgLoop n kf).mH = kf.mH ∧ (computeKgLoop n kf).mR = kf.mR ∧
      (computeKgLoop n kf).mE = kf.mE := by
  induction n generalizing kf with
  | zero => simp [computeKgLoop]
  | succ n ih =>
    obtain ⟨h1, h2, h3, h4, h5⟩ := ih (computeKgStep kf)
    obtain ⟨g1, g2, g3, g4, g5⟩ := computeKgStep_frame kf
    simp only [computeKgLoop]
    exact ⟨h1.trans g1, h2.trans g2, h3.trans g3, h4.trans g4, h5.trans g5⟩

/-- The loop is the `n`-fold iteration of the specification's step on `(P, K)`. -/
theorem computeKgLoop_spec (n : Nat) (kf : KalmanFilter) :
    ((computeKgLoop n kf).mP, (computeKgLoop n kf).mK) =
      (specGainCovStep kf.mA kf.mQ kf.mH kf.mR)^[n] (kf.mP, kf.mK) := by
  induction n generalizing kf with
  | zero => simp [computeKgLoop]
  | succ n ih =>
    obtain ⟨g1, g2, g3, g4, -⟩ := computeKgStep_frame kf
    simp only [computeKgLoop, Function.iterate_succ, Function.comp_apply]
    rw [ih (computeKgStep kf), g1, g2, g3, g4, computeKgStep_spec]

end KalmanFilter

/-! ## Lemmas on the filter, sequences of calls and the calibration loops -/

namespace KalmanFilter

/-- The pair`(P, K)` that `computeKg (n)` leaves. -/
theorem computeKg_PK (kf : KalmanFilter) (n : Nat) :
    ((computeKg kf n).mP, (computeKg kf n).mK) =
      (specGainCovStep kf.mA kf.mQ kf.mH kf.mR)^[n] (some (Matrix.identity 3), kf.mK) := by
  unfold computeKg
  rw [computeKgLoop_spec, MathUtils.makeMatrix3_identity]

/-- The members `computeKg (n)` leaves alone. -/
theorem computeKg_fields (kf : KalmanFilter) (n : Nat) :
    (computeKg kf n).mA = kf.mA ∧ (computeKg kf n).mQ = kf.mQ ∧ (computeKg kf n).mH = kf.mH ∧
      (computeKg kf n).mR = kf.mR ∧ (computeKg kf n).mE = kf.mE :=
  computeKgLoop_frame n { kf with mP := some (MathUtils.makeMatrix3 1 0 0 0 1 0 0 0 1) }

/-- The state transition matrix `setDeltaT` leaves, entry by entry. -/
theorem setDeltaT_mA_of_unit (kf : KalmanFilter) (dt : Real_t)
    (h : kf.mA.mData 0 0 = 1 ∧ kf.mA.mData 1 1 = 1 ∧ kf.mA.mData 2 2 = 1 ∧
      kf.mA.mData 1 0 = 0 ∧ kf.mA.mData 2 0 = 0 ∧ kf.mA.mData 2 1 = 0) :
    (kf.setDeltaT dt).mA = MathUtils.makeMatrix3 1 dt (0.5 * dt * dt) 0 1 dt 0 0 1 := by
  obtain ⟨h00, h11, h22, h10, h20, h21⟩ := h
  ext i j
  fin_cases i <;> fin_cases j <;> simp [setDeltaT, h00, h11, h22, h10, h20, h21]

end KalmanFilter

theorem Op.apply_unitUpper (kf : KalmanFilter) (op : Op) (h : UnitUpper kf.mA) :
    UnitUpper (Op.apply kf op).mA := by
  cases op with
  | setDeltaT kDt =>
    obtain ⟨h00, h11, h22, h10, h20, h21⟩ := h
    simp [Op.apply, UnitUpper, KalmanFilter.setDeltaT, h00, h11, h22, h10, h20, h21]
  | setSensorVariance a b => exact h
  | setInitialState a b c => exact h
  | computeKg n =>
    simp only [Op.apply]
    rw [(KalmanFilter.computeKg_fields kf n).1]
    exact h
  | filter a b => exact h

theorem foldl_unitUpper (ops : List Op) (kf : KalmanFilter) (h : UnitUpper kf.mA) :
    UnitUpper (ops.foldl Op.apply kf).mA := by
  induction ops generalizing kf with
  | nil => exact h
  | cons op ops ih => exact ih _ (Op.apply_unitUpper kf op h)

theorem runOps_unitUpper (ops : List Op) : UnitUpper (runOps ops).mA :=
  foldl_unitUpper ops KalmanFilter.new (by simp [UnitUpper, KalmanFilter.new])

theorem Op.apply_mQ_mH (kf : KalmanFilter) (op : Op) :
    (Op.apply kf op).mQ = kf.mQ ∧ (Op.apply kf op).mH = kf.mH := by
  cases op with
  | setDeltaT kDt => exact ⟨rfl, rfl⟩
  | setSensorVariance a b => exact ⟨rfl, rfl⟩
  | setInitialState a b c => exact ⟨rfl, rfl⟩
  | computeKg n =>
    exact ⟨(KalmanFilter.computeKg_fields kf n).2.1, (KalmanFilter.computeKg_fields kf n).2.2.1⟩
  | filter a b => exact ⟨rfl, rfl⟩

theorem foldl_mQ_mH (ops : List Op) (kf : KalmanFilter) :
    (ops.foldl Op.apply kf).mQ = kf.mQ ∧ (ops.foldl Op.apply kf).mH = kf.mH := by
  induction ops generalizing kf with
  | nil => exact ⟨rfl, rfl⟩
  | cons op ops ih =>
    obtain ⟨h1, h2⟩ := ih (Op.apply kf op)
    obtain ⟨g1, g2⟩ := Op.apply_mQ_mH kf op
    exact ⟨h1.trans g1, h2.trans g2⟩

theorem foldl_mR (ops : List Op) (kf : KalmanFilter) (v : Real_t × Real_t)
    (h : kf.mR = MathUtils.makeMatrix2 v.1 0 0 v.2) :
    (ops.foldl Op.apply kf).mR =
      MathUtils.makeMatrix2 (lastVarianceFrom v ops).1 0 0 (lastVarianceFrom v ops).2 := by
  induction ops generalizing kf v with
  | nil => exact h
  | cons op ops ih =>
    cases op with
    | setDeltaT kDt => exact ih _ v h
    | setSensorVariance a b =>
      refine ih _ (a, b) ?_
      ext i j
      fin_cases i <;> fin_cases j <;> simp [Op.apply, KalmanFilter.setSensorVariance, h]
    | setInitialState a b c => exact ih _ v h
    | computeKg n =>
      refine ih _ v ?_
      simp only [Op.apply]
      rw [(KalmanFilter.computeKg_fields kf n).2.2.2.1]
      exact h
    | filter a b => exact ih _ v h

namespace RocketTracker

theorem sampleAltitude_samples {N : Nat} (d : Nat) (h : History N) (b : BarometerInterface)
    (hd : N - h.samples.length = d) (hl : h.samples.length ≤ N) :
    (sampleAltitude h b).1.samples = h.samples ++ (List.range d).map b.pending := by
  induction d generalizing h b with
  | zero =>
    have hc : h.atCapacity = true := by
      simp only [History.atCapacity, decide_eq_true_eq]; omega
    rw [sampleAltitude]
    simp [hc]
  | succ d ih =>
    have hc : h.atCapacity = false := by
      simp only [History.atCapacity, decide_eq_false_iff_not]; omega
    rw [sampleAltitude]
    simp only [hc, Bool.false_eq_true, ↓reduceDIte]
    have hadd : (h.add b.run.getAltitude).samples = h.samples ++ [b.pending 0] := by
      simp [History.add, hc, BarometerInterface.run, BarometerInterface.getAltitude]
    rw [ih (h.add b.run.getAltitude) b.run (by rw [hadd]; simp; omega)
      (by rw [hadd]; simp; omega), hadd, List.range_succ_eq_map]
    simp [BarometerInterface.run, Function.comp_def]

theorem sampleAccel_samples {N : Nat} (d : Nat) (h : History N) (imu : IMUInterface)
    (i : Fin 3) (hd : N - h.samples.length = d) (hl : h.samples.length ≤ N) :
    (sampleAccel h imu i).1.samples =
      h.samples ++ (List.range d).map (fun n => (imu.pending n).vecAccel.idx i) := by
  induction d generalizing h imu with
  | zero =>
    have hc : h.atCapacity = true := by
      simp only [History.atCapacity, decide_eq_true_eq]; omega
    rw [sampleAccel]
    simp [hc]
  | succ d ih =>
    have hc : h.atCapacity = false := by
      simp only [History.atCapacity, decide_eq_false_iff_not]; omega
    rw [sampleAccel]
    simp only [hc, Bool.false_eq_true, ↓reduceDIte]
    have hadd : (h.add (imu.run.getAccelerationVectorPtr i)).samples =
        h.samples ++ [(imu.pending 0).vecAccel.idx i] := by
      simp [History.add, hc, IMUInterface.run, IMUInterface.getAccelerationVectorPtr]
    rw [ih (h.add (imu.run.getAccelerationVectorPtr i)) imu.run (by rw [hadd]; simp; omega)
      (by rw [hadd]; simp; omega), hadd, List.range_succ_eq_map]
    simp [IMUInterface.run, Function.comp_def]

/-- From an empty buffer of capacity `N` the loop takes the next `N` barometer readings. -/
theorem sampleAltitude_empty {N : Nat} (baro : BarometerInterface) :
    (sampleAltitude (History.empty : History N) baro).1.samples =
      (List.range N).map baro.pending := by
  have h := sampleAltitude_samples N (History.empty : History N) baro (Nat.sub_zero _)
    (Nat.zero_le _)
  simpa [History.empty] using h

/-- From an empty buffer of capacity `N` the loop takes the next `N` IMU readings. -/
theorem sampleAccel_empty {N : Nat} (imu : IMUInterface) (i : Fin 3) :
    (sampleAccel (History.empty : History N) imu i).1.samples =
      (List.range N).map (fun n => (imu.pending n).vecAccel.idx i) := by
  have h := sampleAccel_samples N (History.empty : History N) imu i (Nat.sub_zero _)
    (Nat.zero_le _)
  simpa [History.empty] using h

/-- The altitude samples `profileSensors` takes: the next `numSamples` barometer readings. -/
theorem altitude_samples (baro : BarometerInterface) :
    (sampleAltitude (History.empty : History numSamples) baro).1.samples =
      (List.range numSamples).map baro.pending := by
  exact sampleAltitude_empty baro

/-- The acceleration samples `profileSensors` takes: the vertical component of the next
`numSamples` IMU readings. -/
theorem accel_samples (imu : IMUInterface) (i : Fin 3) :
    (sampleAccel (History.empty : History numSamples) imu i).1.samples =
      (List.range numSamples).map (fun n => (imu.pending n).vecAccel.idx i) := by
  exact sampleAccel_empty imu i

/-- The profile in terms of the samples. -/
theorem profileSensors_profile (x : Collaborators) (imu : IMUInterface)
    (baro : BarometerInterface) (i : Fin 3) :
    (profileSensors x imu baro i).1 =
      { baroVar := x.getStdev ((List.range numSamples).map baro.pending) *
          x.getStdev ((List.range numSamples).map baro.pending),
        imuVar := x.getStdev ((List.range numSamples).map
            (fun n => (imu.pending n).vecAccel.idx i)) *
          x.getStdev ((List.range numSamples).map (fun n => (imu.pending n).vecAccel.idx i)),
        lpAlt := x.getMean ((List.range numSamples).map baro.pending) } := by
  simp only [profileSensors, altitude_samples, accel_samples]

/-- The tracker the constructor builds when both sensors are present and the index is inside
the vector. -/
theorem new_eq (x : Collaborators) (imu : IMUInterface) (baro : BarometerInterface)
    (i : Fin 3) (dt : Real_t) (n : Nat) :
    RocketTracker.new x
        { pImu := some imu, pBarometer := some baro, dt := dt, vertAccelIdx := i.val,
          kgIterations := n } =
      some { mPImu := (profileSensors x imu baro i).2.1
             mPBarometer := (profileSensors x imu baro i).2.2
             mVertAccelIdx := i
             mLpAltitude := (profileSensors x imu baro i).1.lpAlt
             mKf := (((KalmanFilter.new.setDeltaT dt).setInitialState
               (profileSensors x imu baro i).1.lpAlt 0 0).setSensorVariance
               (profileSensors x imu baro i).1.baroVar
               (profileSensors x imu baro i).1.imuVar).computeKg n } := by
  simp [RocketTracker.new, i.isLt]

/-- The filter members the constructor has set before the warm-up. -/
theorem configured_filter (dt m bv iv : Real_t) :
    (((KalmanFilter.new.setDeltaT dt).setInitialState m 0 0).setSensorVariance bv iv) =
      { mA := MathUtils.makeMatrix3 1 dt (0.5 * dt * dt) 0 1 dt 0 0 1
        mQ := Matrix.fill 0
        mH := KalmanFilter.new.mH
        mR := MathUtils.makeMatrix2 bv 0 0 iv
        mP := some (Matrix.identity 3)
        mK := some Matrix.zero
        mE := some (MathUtils.makeVector3 m 0 0) } := by
  have hA := KalmanFilter.setDeltaT_mA_of_unit KalmanFilter.new dt
    (by simp [KalmanFilter.new])
  have hR : ((Matrix.fill 0 : Matrix 2 2).set 0 0 bv).set 1 1 iv =
      MathUtils.makeMatrix2 bv 0 0 iv := by
    ext i j
    fin_cases i <;> fin_cases j <;> simp
  simp only [KalmanFilter.setDeltaT] at hA
  simp only [KalmanFilter.setSensorVariance, KalmanFilter.setInitialState,
    KalmanFilter.setDeltaT, hA]
  simp only [KalmanFilter.new, hR, MathUtils.makeMatrix3_identity]

end RocketTracker

/-! ## Matrix algebra, the covariance update and its invariants -/

namespace MathUtils

/-- A result of the inversion is a right inverse. -/
theorem mul_invertMatrix2 {M Mi : Matrix 2 2} (h : invertMatrix2 M = some Mi) :
    M * Mi = Matrix.identity 2 := by
  obtain ⟨hd, rfl⟩ := invertMatrix2_eq_some h
  have h2 : M.mData 0 0 * M.mData 1 1 - M.mData 0 1 * M.mData 1 0 ≠ 0 := hd
  ext i j
  fin_cases i <;> fin_cases j <;>
    simp [det2, Fin.sum_univ_two] <;> field_simp <;> ring

/-- A result of the inversion is a left inverse. -/
theorem invertMatrix2_mul {M Mi : Matrix 2 2} (h : invertMatrix2 M = some Mi) :
    Mi * M = Matrix.identity 2 := by
  obtain ⟨hd, rfl⟩ := invertMatrix2_eq_some h
  have h2 : M.mData 0 0 * M.mData 1 1 - M.mData 0 1 * M.mData 1 0 ≠ 0 := hd
  ext i j
  fin_cases i <;> fin_cases j <;>
    simp [det2, Fin.sum_univ_two] <;> field_simp <;> ring

end MathUtils

namespace KalmanFilter

theorem ext_fields {a b : KalmanFilter} (hA : a.mA = b.mA) (hQ : a.mQ = b.mQ)
    (hH : a.mH = b.mH) (hR : a.mR = b.mR) (hP : a.mP = b.mP) (hK : a.mK = b.mK)
    (hE : a.mE = b.mE) : a = b := by
  cases a; cases b; simp_all

/-- The loop with one more iteration runs one more step at the end. -/
theorem computeKgLoop_succ (n : Nat) (kf : KalmanFilter) :
    computeKgLoop (n + 1) kf = computeKgStep (computeKgLoop n kf) := by
  induction n generalizing kf with
  | zero => rfl
  | succ n ih =>
    have h : computeKgLoop (n + 1 + 1) kf = computeKgLoop (n + 1) (computeKgStep kf) := rfl
    rw [h, ih (computeKgStep kf)]
    rfl

/-- The public `computeKg (n + 1)` is `computeKg (n)` followed by one step. -/
theorem computeKg_succ (kf : KalmanFilter) (n : Nat) :
    computeKg kf (n + 1) = computeKgStep (computeKg kf n) :=
  computeKgLoop_succ n _

/-- The filter after `filter` differs from the filter before it in `E` only. -/
theorem filter_frame (kf : KalmanFilter) (a b : Real_t) :
    (filter kf a b).2.mA = kf.mA ∧ (filter kf a b).2.mQ = kf.mQ ∧
      (filter kf a b).2.mH = kf.mH ∧ (filter kf a b).2.mR = kf.mR ∧
      (filter kf a b).2.mP = kf.mP ∧ (filter kf a b).2.mK = kf.mK ∧
      (filter kf a b).2.mE = (filter kf a b).1 :=
  ⟨rfl, rfl, rfl, rfl, rfl, rfl, rfl⟩

/-- The value `filter` returns when the estimate and the gain are real matrices. -/
theorem filter_of_some (kf : KalmanFilter) (a b : Real_t) (E : Vector3_t) (K : Matrix 3 2)
    (hE : kf.mE = some E) (hK : kf.mK = some K) :
    (filter kf a b).1 =
      some (kf.mA * E + K * (MathUtils.makeVector2 a b - kf.mH * (kf.mA * E))) := by
  simp [filter, hE, hK]

/-- With a gain of `inf`/`NaN` entries, the estimate `filter` returns has such entries. -/
theorem filter_of_gain_none (kf : KalmanFilter) (a b : Real_t) (hK : kf.mK = none) :
    (filter kf a b).1 = none := by
  cases hE : kf.mE <;> simp [filter, hE, hK]

/-- With an estimate of `inf`/`NaN` entries, the estimate `filter` returns has such entries. -/
theorem filter_of_estimate_none (kf : KalmanFilter) (a b : Real_t) (hE : kf.mE = none) :
    (filter kf a b).1 = none := by
  simp [filter, hE]

/-- With the first column of `A` equal to `(1, 0, 0)`, the fixed `H`, a gain of real numbers
and the estimate `(h, 0, 0)`, filtering the observation `(h, 0)` returns `(h, 0, 0)`. -/
theorem filter_at_rest (kf : KalmanFilter) (h : Real_t) (K : Matrix 3 2)
    (hA : UnitUpper kf.mA) (hH : kf.mH = new.mH) (hK : kf.mK = some K)
    (hE : kf.mE = some (MathUtils.makeVector3 h 0 0)) :
    (filter kf h 0).1 = some (MathUtils.makeVector3 h 0 0) := by
  obtain ⟨h00, h11, h22, h10, h20, h21⟩ := hA
  rw [filter_of_some kf h 0 _ K hE hK]
  congr 1
  ext i j
  fin_cases i <;>
    simp [hH, new, Fin.sum_univ_three, Fin.sum_univ_two, h00, h10, h20]

theorem filterTicks_at_rest (kf : KalmanFilter) (h : Real_t) (K : Matrix 3 2)
    (hA : UnitUpper kf.mA) (hH : kf.mH = new.mH) (hK : kf.mK = some K)
    (hE : kf.mE = some (MathUtils.makeVector3 h 0 0)) (ticks : Nat) :
    (filterTicks kf h 0 ticks).mA = kf.mA ∧ (filterTicks kf h 0 ticks).mH = kf.mH ∧
      (filterTicks kf h 0 ticks).mK = kf.mK ∧
      (filterTicks kf h 0 ticks).mE = some (MathUtils.makeVector3 h 0 0) := by
  induction ticks with
  | zero => exact ⟨rfl, rfl, rfl, hE⟩
  | succ n ih =>
    obtain ⟨iA, iH, iK, iE⟩ := ih
    refine ⟨iA, iH, iK, ?_⟩
    exact filter_at_rest _ h K (by rw [iA]; exact hA) (by rw [iH]; exact hH)
      (by rw [iK]; exact hK) iE

/-- With a gain of `inf`/`NaN` entries, every tick leaves an estimate of such entries. -/
theorem filterTicks_of_gain_none (kf : KalmanFilter) (a b : Real_t) (hK : kf.mK = none)
    (ticks : Nat) :
    (filterTicks kf a b ticks).mK = none ∧ (filterTicks kf a b (ticks + 1)).mE = none := by
  induction ticks with
  | zero => exact ⟨hK, filter_of_gain_none kf a b hK⟩
  | succ n ih => exact ⟨ih.1, filter_of_gain_none _ a b ih.1⟩

end KalmanFilter

namespace Matrix

variable {R C K L : Nat}

theorem mul_assoc_engine (A : Matrix R K) (B : Matrix K L) (D : Matrix L C) :
    A * B * D = A * (B * D) := by
  ext i j
  simp only [mul_mData, Finset.sum_mul, Finset.mul_sum]
  rw [Finset.sum_comm]
  exact Finset.sum_congr rfl fun k _ => Finset.sum_congr rfl fun l _ => mul_assoc _ _ _

theorem mul_add_engine (A : Matrix R K) (B D : Matrix K C) : A * (B + D) = A * B + A * D := by
  ext i j
  simp only [mul_mData, add_mData, mul_add, Finset.sum_add_distrib]

theorem add_mul_engine (A B : Matrix R K) (D : Matrix K C) : (A + B) * D = A * D + B * D := by
  ext i j
  simp only [mul_mData, add_mData, add_mul, Finset.sum_add_distrib]

theorem mul_sub_engine (A : Matrix R K) (B D : Matrix K C) : A * (B - D) = A * B - A * D := by
  ext i j
  simp only [mul_mData, sub_mData, mul_sub, Finset.sum_sub_distrib]

theorem sub_mul_engine (A B : Matrix R K) (D : Matrix K C) : (A - B) * D = A * D - B * D := by
  ext i j
  simp only [mul_mData, sub_mData, sub_mul, Finset.sum_sub_distrib]

theorem transpose_mul_engine (A : Matrix R K) (B : Matrix K C) :
    (A * B).transpose = B.transpose * A.transpose := by
  ext i j
  simp only [transpose_mData, mul_mData]
  exact Finset.sum_congr rfl fun k _ => mul_comm _ _

theorem transpose_add_engine (A B : Matrix R C) :
    (A + B).transpose = A.transpose + B.transpose := rfl

theorem transpose_sub_engine (A B : Matrix R C) :
    (A - B).transpose = A.transpose - B.transpose := rfl

theorem transpose_transpose_engine (A : Matrix R C) : A.transpose.transpose = A := rfl

theorem transpose_identity (n : Nat) : (identity n).transpose = identity n := by
  ext i j
  simp only [transpose_mData, identity_mData, eq_comm]

theorem identity_mul (A : Matrix R C) : identity R * A = A := by
  ext i j
  simp [mul_mData, identity_mData]

theorem mul_identity (A : Matrix R C) : A * identity C = A := by
  ext i j
  simp [mul_mData, identity_mData]

theorem add_fill_zero (A : Matrix R C) : A + fill 0 = A := by
  ext i j
  simp

/-- The quadratic form of `B·P·Bᵗ` at `v` is the quadratic form of `P` at `Bᵗ·v`. -/
theorem quadForm_congruence {n m : Nat} (B : Matrix n m) (P : Matrix m m) (v : Matrix n 1) :
    (B * P * B.transpose).quadForm v = P.quadForm (B.transpose * v) := by
  simp only [quadForm, transpose_mul_engine, transpose_transpose_engine, mul_assoc_engine]

theorem quadForm_add {n : Nat} (X Y : Matrix n n) (v : Matrix n 1) :
    (X + Y).quadForm v = X.quadForm v + Y.quadForm v := by
  simp only [quadForm, mul_add_engine, add_mul_engine, add_mData]

theorem isSymm_congruence {n m : Nat} (B : Matrix n m) {P : Matrix m m} (h : P.IsSymm) :
    (B * P * B.transpose).IsSymm := by
  simp only [IsSymm] at h ⊢
  rw [transpose_mul_engine, transpose_mul_engine, transpose_transpose_engine, h,
    mul_assoc_engine]

theorem isSymm_add {n : Nat} {X Y : Matrix n n} (hX : X.IsSymm) (hY : Y.IsSymm) :
    (X + Y).IsSymm := by
  simp only [IsSymm] at hX hY ⊢
  rw [transpose_add_engine, hX, hY]

theorem isSymm_sub {n : Nat} {X Y : Matrix n n} (hX : X.IsSymm) (hY : Y.IsSymm) :
    (X - Y).IsSymm := by
  simp only [IsSymm] at hX hY ⊢
  rw [transpose_sub_engine, hX, hY]

theorem posSemidef_congruence {n m : Nat} (B : Matrix n m) {P : Matrix m m}
    (h : P.PosSemidef) : (B * P * B.transpose).PosSemidef :=
  ⟨isSymm_congruence B h.1, fun v => by rw [quadForm_congruence]; exact h.2 _⟩

theorem posSemidef_add {n : Nat} {X Y : Matrix n n} (hX : X.PosSemidef) (hY : Y.PosSemidef) :
    (X + Y).PosSemidef :=
  ⟨isSymm_add hX.1 hY.1, fun v => by
    rw [quadForm_add]; exact add_nonneg (hX.2 v) (hY.2 v)⟩

theorem isSymm_fill {n : Nat} (c : Real_t) : (fill c : Matrix n n).IsSymm := rfl

theorem posSemidef_fill_zero {n : Nat} : (fill 0 : Matrix n n).PosSemidef :=
  ⟨rfl, fun v => by simp [quadForm]⟩

theorem posSemidef_identity (n : Nat) : (identity n).PosSemidef := by
  refine ⟨transpose_identity n, fun v => ?_⟩
  rw [quadForm, mul_identity]
  simp only [mul_mData, transpose_mData]
  exact Finset.sum_nonneg fun k _ => mul_self_nonneg _

/-- A diagonal entry is the quadratic form at the unit vector. -/
theorem quadForm_unitVector {n : Nat} (M : Matrix n n) (i : Fin n) :
    M.quadForm (unitVector i) = M.mData i i := by
  simp [quadForm, unitVector, mul_mData]

end Matrix

namespace MathUtils

/-- The inverse of a symmetric matrix is symmetric. -/
theorem isSymm_invertMatrix2 {S Si : Matrix 2 2} (hI : invertMatrix2 S = some Si)
    (h : S.IsSymm) : Si.IsSymm := by
  obtain ⟨-, rfl⟩ := invertMatrix2_eq_some hI
  have h01 : S.mData 1 0 = S.mData 0 1 := congrArg (fun M : Matrix 2 2 => M.mData 0 1) h
  simp only [Matrix.IsSymm]
  ext i j
  fin_cases i <;> fin_cases j <;> simp [h01]

/-- A diagonal 2×2 matrix is symmetric. -/
theorem isSymm_diagonal (a b : Real_t) : (makeMatrix2 a 0 0 b).IsSymm := by
  simp only [Matrix.IsSymm]
  ext i j
  fin_cases i <;> fin_cases j <;> simp

/-- A diagonal 2×2 matrix with non-negative diagonal is positive semidefinite. -/
theorem posSemidef_diagonal {a b : Real_t} (ha : 0 ≤ a) (hb : 0 ≤ b) :
    (makeMatrix2 a 0 0 b).PosSemidef := by
  refine ⟨isSymm_diagonal a b, fun v => ?_⟩
  have h : (makeMatrix2 a 0 0 b).quadForm v =
      a * (v.mData 0 0 * v.mData 0 0) + b * (v.mData 1 0 * v.mData 1 0) := by
    simp [Matrix.quadForm, Fin.sum_univ_two]
    ring
  rw [h]
  exact add_nonneg (mul_nonneg ha (mul_self_nonneg _)) (mul_nonneg hb (mul_self_nonneg _))

end MathUtils

namespace KalmanFilter

open Matrix

/-- The covariance update written as a difference: `(I − P·Hᵗ·Si·H)·P = P − T·Si·Tᵗ` with
`T = P·Hᵗ`, for symmetric `P`. -/
theorem update_eq_sub (P : Matrix 3 3) (H : Matrix 2 3) (Si : Matrix 2 2) (hP : P.IsSymm) :
    (identity 3 - P * H.transpose * Si * H) * P =
      P - (P * H.transpose) * Si * (P * H.transpose).transpose := by
  have hP2 : P.transpose = P := hP
  rw [sub_mul_engine, identity_mul, transpose_mul_engine, transpose_transpose_engine, hP2]
  simp only [mul_assoc_engine]

/-- The covariance update keeps `P` symmetric when `Si` is symmetric. -/
theorem update_isSymm (P : Matrix 3 3) (H : Matrix 2 3) (Si : Matrix 2 2) (hP : P.IsSymm)
    (hS : Si.IsSymm) : ((identity 3 - P * H.transpose * Si * H) * P).IsSymm := by
  rw [update_eq_sub P H Si hP]
  exact isSymm_sub hP (isSymm_congruence _ hS)

/-- The Joseph form of the covariance update, for a gain with `K·(H·P·Hᵗ + R) = P·Hᵗ`. -/
theorem joseph_form (P : Matrix 3 3) (H : Matrix 2 3) (R : Matrix 2 2) (K : Matrix 3 2)
    (hK : K * (H * P * H.transpose + R) = P * H.transpose) :
    (identity 3 - K * H) * P =
      (identity 3 - K * H) * P * (identity 3 - K * H).transpose + K * R * K.transpose := by
  have h1 : (identity 3 - K * H) * P * H.transpose = K * R := by
    ext i j
    have h := congrArg (fun M : Matrix 3 2 => M.mData i j) hK
    simp only [mul_add_engine, add_mData, mul_assoc_engine] at h
    simp only [sub_mul_engine, identity_mul, mul_assoc_engine, sub_mData]
    linarith
  have h2 : (identity 3 - K * H) * P * (identity 3 - K * H).transpose =
      (identity 3 - K * H) * P - K * R * K.transpose := by
    rw [transpose_sub_engine, transpose_identity, transpose_mul_engine, mul_sub_engine,
      mul_identity, ← mul_assoc_engine ((identity 3 - K * H) * P), h1]
  rw [h2]
  ext i j
  simp only [add_mData, sub_mData]
  ring

/-- The gain `K = P·Hᵗ·S⁻¹` satisfies `K·S = P·Hᵗ`. -/
theorem gain_mul_innovation (P : Matrix 3 3) (H : Matrix 2 3) (S Si : Matrix 2 2)
    (hI : MathUtils.invertMatrix2 S = some Si) :
    P * H.transpose * Si * S = P * H.transpose := by
  rw [mul_assoc_engine (P * H.transpose), MathUtils.invertMatrix2_mul hI, mul_identity]

/-- The covariance update keeps `P` positive semidefinite. -/
theorem update_posSemidef (P : Matrix 3 3) (H : Matrix 2 3) (R Si : Matrix 2 2)
    (hP : P.PosSemidef) (hR : R.PosSemidef)
    (hI : MathUtils.invertMatrix2 (H * P * H.transpose + R) = some Si) :
    ((identity 3 - P * H.transpose * Si * H) * P).PosSemidef := by
  rw [joseph_form P H R _ (gain_mul_innovation P H _ Si hI)]
  exact posSemidef_add (posSemidef_congruence _ hP) (posSemidef_congruence _ hR)

end KalmanFilter

namespace KalmanFilter

open Matrix

/-- The entries of `S = H·P·Hᵗ + R` for the fixed `H` and a diagonal `R`. -/
theorem innovation_entries (P : Matrix 3 3) (a b : Real_t) :
    new.mH * P * new.mH.transpose + MathUtils.makeMatrix2 a 0 0 b =
      MathUtils.makeMatrix2 (P.mData 0 0 + a) (P.mData 0 2) (P.mData 2 0) (P.mData 2 2 + b) := by
  ext i j
  fin_cases i <;> fin_cases j <;> simp [new, Fin.sum_univ_three]

/-- For positive semidefinite `P` and positive variances, `S = H·P·Hᵗ + R` has a positive
determinant. -/
theorem det_innovation_pos (P : Matrix 3 3) (a b : Real_t) (hP : P.PosSemidef) (ha : 0 < a)
    (hb : 0 < b) :
    0 < MathUtils.det2 (new.mH * P * new.mH.transpose + MathUtils.makeMatrix2 a 0 0 b) := by
  have h20 : P.mData 2 0 = P.mData 0 2 := congrArg (fun M : Matrix 3 3 => M.mData 0 2) hP.1
  have h22 : 0 ≤ P.mData 2 2 := by
    have h := hP.2 (unitVector 2)
    rwa [quadForm_unitVector] at h
  have hq := hP.2 (MathUtils.makeVector3 (P.mData 2 2 + b) 0 (-P.mData 0 2))
  have hq2 : P.quadForm (MathUtils.makeVector3 (P.mData 2 2 + b) 0 (-P.mData 0 2)) =
      (P.mData 2 2 + b) * (P.mData 2 2 + b) * P.mData 0 0 -
        2 * (P.mData 2 2 + b) * (P.mData 0 2 * P.mData 0 2) +
        P.mData 0 2 * P.mData 0 2 * P.mData 2 2 := by
    simp [quadForm, Fin.sum_univ_three, h20]
    ring
  rw [hq2] at hq
  rw [innovation_entries]
  have hs : 0 < P.mData 2 2 + b := by linarith
  have hd : MathUtils.det2 (MathUtils.makeMatrix2 (P.mData 0 0 + a) (P.mData 0 2) (P.mData 2 0)
      (P.mData 2 2 + b)) = (P.mData 0 0 + a) * (P.mData 2 2 + b) - P.mData 0 2 * P.mData 0 2 := by
    simp [MathUtils.det2, h20]
  rw [hd]
  have hprod : 0 < (P.mData 2 2 + b) *
      ((P.mData 0 0 + a) * (P.mData 2 2 + b) - P.mData 0 2 * P.mData 0 2) := by
    have e : (P.mData 2 2 + b) *
        ((P.mData 0 0 + a) * (P.mData 2 2 + b) - P.mData 0 2 * P.mData 0 2) =
        ((P.mData 2 2 + b) * (P.mData 2 2 + b) * P.mData 0 0 -
          2 * (P.mData 2 2 + b) * (P.mData 0 2 * P.mData 0 2) +
          P.mData 0 2 * P.mData 0 2 * P.mData 2 2) +
        a * ((P.mData 2 2 + b) * (P.mData 2 2 + b)) +
        b * (P.mData 0 2 * P.mData 0 2) := by ring
    rw [e]
    have t1 : 0 < a * ((P.mData 2 2 + b) * (P.mData 2 2 + b)) :=
      mul_pos ha (mul_pos hs hs)
    have t2 : 0 ≤ b * (P.mData 0 2 * P.mData 0 2) :=
      mul_nonneg hb.le (mul_self_nonneg _)
    linarith
  exact (mul_pos_iff_of_pos_left hs).mp hprod

/-- The covariance update does not increase any diagonal entry of a positive semidefinite
`P`. -/
theorem update_diag_le (P : Matrix 3 3) (H : Matrix 2 3) (R Si : Matrix 2 2)
    (hP : P.PosSemidef) (hR : R.PosSemidef)
    (hI : MathUtils.invertMatrix2 (H * P * H.transpose + R) = some Si) (i : Fin 3) :
    ((identity 3 - P * H.transpose * Si * H) * P).mData i i ≤ P.mData i i := by
  have hS : (H * P * H.transpose + R).PosSemidef :=
    posSemidef_add (posSemidef_congruence H hP) hR
  have hSi : Si.transpose = Si := MathUtils.isSymm_invertMatrix2 hI hS.1
  have hK := gain_mul_innovation P H _ Si hI
  have e : (P * H.transpose) * Si * (P * H.transpose).transpose =
      (P * H.transpose * Si) * (H * P * H.transpose + R) *
        (P * H.transpose * Si).transpose := by
    rw [hK, transpose_mul_engine (P * H.transpose), hSi, mul_assoc_engine (P * H.transpose)]
  rw [update_eq_sub P H _ hP.1, e, sub_mData]
  have hn := (posSemidef_congruence (P * H.transpose * Si) hS).2 (unitVector i)
  rw [quadForm_unitVector] at hn
  linarith

end KalmanFilter

namespace KalmanFilter

open Matrix

/-- The step on a filter whose `P` holds `inf`/`NaN`. -/
theorem computeKgStep_of_none (kf : KalmanFilter) (hP : kf.mP = none) :
    (computeKgStep kf).mP = none ∧ (computeKgStep kf).mK = none := by
  simp [computeKgStep, hP]

/-- The step on a filter whose `S = H·P·Hᵗ + R` is singular. -/
theorem computeKgStep_of_singular (kf : KalmanFilter) (P : Matrix 3 3) (hP : kf.mP = some P)
    (hI : MathUtils.invertMatrix2 (kf.mH * P * kf.mH.transpose + kf.mR) = none) :
    (computeKgStep kf).mP = none ∧ (computeKgStep kf).mK = none := by
  simp [computeKgStep, hP, hI]

/-- The covariance and the gain one step leaves, in terms of the update and the
propagation, when the inversion has a result. -/
theorem computeKgStep_of_some (kf : KalmanFilter) (P : Matrix 3 3) (Si : Matrix 2 2)
    (hP : kf.mP = some P)
    (hI : MathUtils.invertMatrix2 (kf.mH * P * kf.mH.transpose + kf.mR) = some Si) :
    (computeKgStep kf).mP =
        some (kf.mA * ((identity 3 - P * kf.mH.transpose * Si * kf.mH) * P) * kf.mA.transpose +
          kf.mQ) ∧
      (computeKgStep kf).mK = some (P * kf.mH.transpose * Si) := by
  simp [computeKgStep, hP, hI, MathUtils.makeMatrix3_identity]

/-- The covariance update of a step, with the identity written as such. -/
theorem updatedCovariance_of_some (kf : KalmanFilter) (P : Matrix 3 3) (Si : Matrix 2 2)
    (hP : kf.mP = some P)
    (hI : MathUtils.invertMatrix2 (kf.mH * P * kf.mH.transpose + kf.mR) = some Si) :
    updatedCovariance kf = some ((identity 3 - P * kf.mH.transpose * Si * kf.mH) * P) := by
  simp [updatedCovariance, hP, hI, MathUtils.makeMatrix3_identity]

/-- The matrix a step inverts, when `P` is a real matrix. -/
theorem innovationCovariance_of_some (kf : KalmanFilter) (P : Matrix 3 3)
    (hP : kf.mP = some P) :
    innovationCovariance kf = some (kf.mH * P * kf.mH.transpose + kf.mR) := by
  simp [innovationCovariance, hP]

/-- One step keeps a real `P` symmetric when `P`, `R` and `Q` are symmetric. -/
theorem computeKgStep_isSymm (kf : KalmanFilter) (hP : ∀ P, kf.mP = some P → P.IsSymm)
    (hR : kf.mR.IsSymm) (hQ : kf.mQ.IsSymm) :
    ∀ P1, (computeKgStep kf).mP = some P1 → P1.IsSymm := by
  intro P1 h1
  cases hP0 : kf.mP with
  | none =>
    rw [(computeKgStep_of_none kf hP0).1] at h1
    exact absurd h1 (by simp)
  | some P =>
    cases hI : MathUtils.invertMatrix2 (kf.mH * P * kf.mH.transpose + kf.mR) with
    | none =>
      rw [(computeKgStep_of_singular kf P hP0 hI).1] at h1
      exact absurd h1 (by simp)
    | some Si =>
      rw [(computeKgStep_of_some kf P Si hP0 hI).1] at h1
      have hS : (kf.mH * P * kf.mH.transpose + kf.mR).IsSymm :=
        isSymm_add (isSymm_congruence kf.mH (hP P hP0)) hR
      rw [← Option.some.inj h1]
      exact isSymm_add
        (isSymm_congruence kf.mA
          (update_isSymm P kf.mH Si (hP P hP0) (MathUtils.isSymm_invertMatrix2 hI hS)))
        hQ

theorem computeKgLoop_isSymm (n : Nat) (kf : KalmanFilter)
    (hP : ∀ P, kf.mP = some P → P.IsSymm) (hR : kf.mR.IsSymm) (hQ : kf.mQ.IsSymm) :
    ∀ P1, (computeKgLoop n kf).mP = some P1 → P1.IsSymm := by
  induction n generalizing kf with
  | zero => exact hP
  | succ n ih =>
    obtain ⟨-, gQ, -, gR, -⟩ := computeKgStep_frame kf
    exact ih (computeKgStep kf) (computeKgStep_isSymm kf hP hR hQ) (by rw [gR]; exact hR)
      (by rw [gQ]; exact hQ)

theorem computeKg_isSymm (kf : KalmanFilter) (n : Nat) (hR : kf.mR.IsSymm)
    (hQ : kf.mQ.IsSymm) : ∀ P1, (computeKg kf n).mP = some P1 → P1.IsSymm := by
  refine computeKgLoop_isSymm n _ ?_ hR hQ
  intro P hP
  have h : MathUtils.makeMatrix3 1 0 0 0 1 0 0 0 1 = P := Option.some.inj hP
  rw [← h, MathUtils.makeMatrix3_identity]
  exact transpose_identity 3

/-- For the fixed `H`, a diagonal `R` with positive entries and a positive semidefinite `P`,
the inversion of `S = H·P·Hᵗ + R` has a result. -/
theorem invert_innovation_some (P : Matrix 3 3) (a b : Real_t) (hP : P.PosSemidef)
    (ha : 0 < a) (hb : 0 < b) :
    ∃ Si, MathUtils.invertMatrix2
      (new.mH * P * new.mH.transpose + MathUtils.makeMatrix2 a 0 0 b) = some Si :=
  ⟨_, MathUtils.invertMatrix2_of_det_ne_zero _ (det_innovation_pos P a b hP ha hb).ne.symm⟩

/-- One step keeps `P` a positive semidefinite real matrix and leaves a real gain, for the
fixed `H`, `Q = 0` and a diagonal `R` with positive entries. -/
theorem computeKgStep_posSemidef (kf : KalmanFilter) (a b : Real_t) (hH : kf.mH = new.mH)
    (hQ : kf.mQ = fill 0) (hR : kf.mR = MathUtils.makeMatrix2 a 0 0 b) (ha : 0 < a)
    (hb : 0 < b) (P : Matrix 3 3) (hP : kf.mP = some P) (hpsd : P.PosSemidef) :
    (∃ P1, (computeKgStep kf).mP = some P1 ∧ P1.PosSemidef) ∧
      ∃ K1, (computeKgStep kf).mK = some K1 := by
  obtain ⟨Si, hI⟩ := invert_innovation_some P a b hpsd ha hb
  rw [← hH, ← hR] at hI
  obtain ⟨h1, h2⟩ := computeKgStep_of_some kf P Si hP hI
  refine ⟨⟨_, h1, ?_⟩, _, h2⟩
  rw [hQ, add_fill_zero]
  rw [hR] at hI
  exact posSemidef_congruence kf.mA
    (update_posSemidef P kf.mH _ Si hpsd (MathUtils.posSemidef_diagonal ha.le hb.le) hI)

theorem computeKgLoop_posSemidef (n : Nat) (kf : KalmanFilter) (a b : Real_t)
    (hH : kf.mH = new.mH) (hQ : kf.mQ = fill 0) (hR : kf.mR = MathUtils.makeMatrix2 a 0 0 b)
    (ha : 0 < a) (hb : 0 < b) (P : Matrix 3 3) (hP : kf.mP = some P) (hpsd : P.PosSemidef)
    (K : Matrix 3 2) (hK : kf.mK = some K) :
    (∃ P1, (computeKgLoop n kf).mP = some P1 ∧ P1.PosSemidef) ∧
      ∃ K1, (computeKgLoop n kf).mK = some K1 := by
  induction n generalizing kf P K with
  | zero => exact ⟨⟨P, hP, hpsd⟩, K, hK⟩
  | succ n ih =>
    obtain ⟨-, gQ, gH, gR, -⟩ := computeKgStep_frame kf
    obtain ⟨⟨P1, hP1, hpsd1⟩, K1, hK1⟩ := computeKgStep_posSemidef kf a b hH hQ hR ha hb P hP hpsd
    exact ih (computeKgStep kf) (gH.trans hH) (gQ.trans hQ) (gR.trans hR) P1 hP1 hpsd1 K1 hK1

/-- During the warm-up `P` stays a positive semidefinite real matrix. -/
theorem computeKg_posSemidef (kf : KalmanFilter) (n : Nat) (a b : Real_t)
    (hH : kf.mH = new.mH) (hQ : kf.mQ = fill 0) (hR : kf.mR = MathUtils.makeMatrix2 a 0 0 b)
    (ha : 0 < a) (hb : 0 < b) :
    ∃ P1, (computeKg kf n).mP = some P1 ∧ P1.PosSemidef := by
  cases n with
  | zero =>
    refine ⟨identity 3, ?_, posSemidef_identity 3⟩
    simp [computeKg, computeKgLoop, MathUtils.makeMatrix3_identity]
  | succ n =>
    obtain ⟨⟨P1, hP1, hpsd1⟩, -⟩ := computeKgStep_posSemidef
      { kf with mP := some (MathUtils.makeMatrix3 1 0 0 0 1 0 0 0 1) } a b hH hQ hR ha hb
      (identity 3) (by simp [MathUtils.makeMatrix3_identity]) (posSemidef_identity 3)
    obtain ⟨-, gQ, gH, gR, -⟩ := computeKgStep_frame
      { kf with mP := some (MathUtils.makeMatrix3 1 0 0 0 1 0 0 0 1) }
    obtain ⟨K1, hK1⟩ := (computeKgStep_posSemidef
      { kf with mP := some (MathUtils.makeMatrix3 1 0 0 0 1 0 0 0 1) } a b hH hQ hR ha hb
      (identity 3) (by simp [MathUtils.makeMatrix3_identity]) (posSemidef_identity 3)).2
    exact (computeKgLoop_posSemidef n _ a b (gH.trans hH) (gQ.trans hQ) (gR.trans hR) ha hb
      P1 hP1 hpsd1 K1 hK1).1

/-- After the warm-up the gain is a real matrix, when it was one before or a step was run. -/
theorem computeKg_gain_some (kf : KalmanFilter) (n : Nat) (a b : Real_t)
    (hH : kf.mH = new.mH) (hQ : kf.mQ = fill 0) (hR : kf.mR = MathUtils.makeMatrix2 a 0 0 b)
    (ha : 0 < a) (hb : 0 < b) (K : Matrix 3 2) (hK : kf.mK = some K) :
    ∃ K1, (computeKg kf n).mK = some K1 :=
  (computeKgLoop_posSemidef n { kf with mP := some (MathUtils.makeMatrix3 1 0 0 0 1 0 0 0 1) }
    a b hH hQ hR ha hb (identity 3) (by simp [MathUtils.makeMatrix3_identity])
    (posSemidef_identity 3) K hK).2

/-- The loop of `m + j` iterations is the loop of `j` iterations followed by `m` more. -/
theorem computeKgLoop_add (m j : Nat) (kf : KalmanFilter) :
    computeKgLoop (m + j) kf = computeKgLoop m (computeKgLoop j kf) := by
  induction j generalizing kf with
  | zero => rfl
  | succ j ih =>
    have h : computeKgLoop (m + (j + 1)) kf = computeKgLoop (m + j) (computeKgStep kf) := rfl
    rw [h, ih (computeKgStep kf)]
    rfl

/-- The step number `j` of `computeKg (n)`, `j < n`, is applied to the filter that
`computeKg (j)` leaves. -/
theorem computeKg_split (kf : KalmanFilter) (n j : Nat) (hj : j < n) :
    computeKg kf n = computeKgLoop (n - j - 1) (computeKgStep (computeKg kf j)) := by
  have e : n = (n - j - 1) + (j + 1) := by omega
  conv_lhs => rw [e]
  unfold computeKg
  rw [computeKgLoop_add, computeKgLoop_succ]

/-- Once `P` holds `inf`/`NaN`, every further step leaves `P` and `K` so. -/
theorem computeKgLoop_of_none (n : Nat) (kf : KalmanFilter) (hP : kf.mP = none)
    (hK : kf.mK = none) :
    (computeKgLoop n kf).mP = none ∧ (computeKgLoop n kf).mK = none := by
  induction n generalizing kf with
  | zero => exact ⟨hP, hK⟩
  | succ n ih =>
    obtain ⟨h1, h2⟩ := computeKgStep_of_none kf hP
    exact ih (computeKgStep kf) h1 h2

/-- The model matrices of a filter reached from construction. -/
theorem runOps_model (ops : List Op) :
    (runOps ops).mH = new.mH ∧ (runOps ops).mQ = fill 0 ∧
      (runOps ops).mR =
        MathUtils.makeMatrix2 (lastVariance ops).1 0 0 (lastVariance ops).2 := by
  obtain ⟨hQ, hH⟩ := foldl_mQ_mH ops KalmanFilter.new
  refine ⟨hH, hQ, foldl_mR ops KalmanFilter.new (0, 0) ?_⟩
  ext i j
  fin_cases i <;> fin_cases j <;> simp [KalmanFilter.new]

end KalmanFilter

theorem Op.apply_isSymm (kf : KalmanFilter) (op : Op) (hP : ∀ P, kf.mP = some P → P.IsSymm)
    (hR : kf.mR.IsSymm) (hQ : kf.mQ.IsSymm) :
    (∀ P, (Op.apply kf op).mP = some P → P.IsSymm) ∧ (Op.apply kf op).mR.IsSymm ∧
      (Op.apply kf op).mQ.IsSymm := by
  cases op with
  | setDeltaT kDt => exact ⟨hP, hR, hQ⟩
  | setSensorVariance a b =>
    refine ⟨hP, ?_, hQ⟩
    have h01 : kf.mR.mData 1 0 = kf.mR.mData 0 1 :=
      congrArg (fun M : Matrix 2 2 => M.mData 0 1) hR
    simp only [Matrix.IsSymm, Op.apply, KalmanFilter.setSensorVariance]
    ext i j
    fin_cases i <;> fin_cases j <;> simp [h01]
  | setInitialState a b c => exact ⟨hP, hR, hQ⟩
  | computeKg n =>
    obtain ⟨-, gQ, -, gR, -⟩ := KalmanFilter.computeKg_fields kf n
    exact ⟨KalmanFilter.computeKg_isSymm kf n hR hQ, by simp only [Op.apply]; rw [gR]; exact hR,
      by simp only [Op.apply]; rw [gQ]; exact hQ⟩
  | filter a b => exact ⟨hP, hR, hQ⟩

theorem foldl_isSymm (ops : List Op) (kf : KalmanFilter)
    (hP : ∀ P, kf.mP = some P → P.IsSymm) (hR : kf.mR.IsSymm) (hQ : kf.mQ.IsSymm) :
    (∀ P, (ops.foldl Op.apply kf).mP = some P → P.IsSymm) ∧
      (ops.foldl Op.apply kf).mR.IsSymm ∧ (ops.foldl Op.apply kf).mQ.IsSymm := by
  induction ops generalizing kf with
  | nil => exact ⟨hP, hR, hQ⟩
  | cons op ops ih =>
    obtain ⟨h1, h2, h3⟩ := Op.apply_isSymm kf op hP hR hQ
    exact ih _ h1 h2 h3

theorem runOps_isSymm (ops : List Op) :
    (∀ P, (runOps ops).mP = some P → P.IsSymm) ∧ (runOps ops).mR.IsSymm ∧
      (runOps ops).mQ.IsSymm := by
  refine foldl_isSymm ops KalmanFilter.new ?_ rfl rfl
  intro P hP
  have h : MathUtils.makeMatrix3 1 0 0 0 1 0 0 0 1 = P := Option.some.inj hP
  rw [← h, MathUtils.makeMatrix3_identity]
  exact Matrix.transpose_identity 3

namespace KalmanFilter

/-- The specification's step reads only the covariance of the pair it is given. -/
theorem specGainCovStep_gain_irrelevant (A Q : Matrix 3 3) (H : Matrix 2 3) (R : Matrix 2 2)
    (P : Option (Matrix 3 3)) (K1 K2 : Option (Matrix 3 2)) :
    specGainCovStep A Q H R (P, K1) = specGainCovStep A Q H R (P, K2) := rfl

/-- After at least one step, the pair `(P, K)` left by `computeKg` is determined by
`A`, `Q`, `H` and `R`. -/
theorem computeKg_PK_congr (kf1 kf2 : KalmanFilter) (n : Nat) (hA : kf1.mA = kf2.mA)
    (hQ : kf1.mQ = kf2.mQ) (hH : kf1.mH = kf2.mH) (hR : kf1.mR = kf2.mR) :
    ((computeKg kf1 (n + 1)).mP, (computeKg kf1 (n + 1)).mK) =
      ((computeKg kf2 (n + 1)).mP, (computeKg kf2 (n + 1)).mK) := by
  rw [computeKg_PK, computeKg_PK, hA, hQ, hH, hR, Function.iterate_succ_apply,
    Function.iterate_succ_apply,
    specGainCovStep_gain_irrelevant kf2.mA kf2.mQ kf2.mH kf2.mR _ kf1.mK kf2.mK]

/-- Running `computeKg (n)` twice leaves the filter that running it once leaves. -/
theorem computeKg_twice (kf : KalmanFilter) (n : Nat) :
    computeKg (computeKg kf n) n = computeKg kf n := by
  obtain ⟨hA, hQ, hH, hR, -⟩ := computeKg_fields kf n
  obtain ⟨gA, gQ, gH, gR, gE⟩ := computeKg_fields (computeKg kf n) n
  cases n with
  | zero =>
    simp [computeKg, computeKgLoop]
  | succ n =>
    have h := computeKg_PK_congr (computeKg kf (n + 1)) kf n hA hQ hH hR
    exact ext_fields gA gQ gH gR (congrArg Prod.fst h) (congrArg Prod.snd h) gE

end KalmanFilter

namespace KalmanFilter

open Matrix

/-- With both variances zero, the first warm-up step inverts the 2×2 identity and leaves
`P = [[dt², dt, 0], [dt, 1, 0], [0, 0, 0]]` and a real gain. -/
theorem zero_variance_first_step (kf : KalmanFilter) (dt : Real_t)
    (hA : kf.mA = MathUtils.makeMatrix3 1 dt (0.5 * dt * dt) 0 1 dt 0 0 1)
    (hH : kf.mH = new.mH) (hQ : kf.mQ = fill 0)
    (hR : kf.mR = MathUtils.makeMatrix2 0 0 0 0) :
    innovationCovariance (computeKg kf 0) = some (identity 2) ∧
      (computeKg kf 1).mP = some (MathUtils.makeMatrix3 (dt * dt) dt 0 dt 1 0 0 0 0) ∧
      ∃ K, (computeKg kf 1).mK = some K := by
  have hS : kf.mH * MathUtils.makeMatrix3 1 0 0 0 1 0 0 0 1 * kf.mH.transpose + kf.mR =
      identity 2 := by
    rw [hH, hR]
    ext i j
    fin_cases i <;> fin_cases j <;> simp [new, Fin.sum_univ_three]
  have hI : MathUtils.invertMatrix2
      (kf.mH * MathUtils.makeMatrix3 1 0 0 0 1 0 0 0 1 * kf.mH.transpose + kf.mR) =
      some (identity 2) := by
    rw [hS, MathUtils.invertMatrix2_of_det_ne_zero _ (by simp [MathUtils.det2])]
    congr 1
    ext i j
    fin_cases i <;> fin_cases j <;> simp [MathUtils.det2]
  obtain ⟨h1, h2⟩ := computeKgStep_of_some
    { kf with mP := some (MathUtils.makeMatrix3 1 0 0 0 1 0 0 0 1) }
    (MathUtils.makeMatrix3 1 0 0 0 1 0 0 0 1) (identity 2) rfl hI
  refine ⟨?_, ?_, _, h2⟩
  · have h0 : (computeKg kf 0).mP = some (MathUtils.makeMatrix3 1 0 0 0 1 0 0 0 1) := rfl
    rw [innovationCovariance_of_some _ _ h0]
    exact congrArg some hS
  · have e : (computeKg kf 1).mP =
        (computeKgStep { kf with mP := some (MathUtils.makeMatrix3 1 0 0 0 1 0 0 0 1) }).mP := rfl
    rw [e, h1]
    simp only [hA, hH, hQ]
    congr 1
    ext i j
    fin_cases i <;> fin_cases j <;>
      simp [new, Fin.sum_univ_three, Fin.sum_univ_two]

/-- With both variances zero, the matrix the second warm-up step inverts is
`[[dt², 0], [0, 0]]`, of determinant zero, and from that step on `P` and `K` hold
`inf`/`NaN`. -/
theorem zero_variance_second_step (kf : KalmanFilter) (dt : Real_t)
    (hA : kf.mA = MathUtils.makeMatrix3 1 dt (0.5 * dt * dt) 0 1 dt 0 0 1)
    (hH : kf.mH = new.mH) (hQ : kf.mQ = fill 0)
    (hR : kf.mR = MathUtils.makeMatrix2 0 0 0 0) :
    innovationCovariance (computeKg kf 1) = some (MathUtils.makeMatrix2 (dt * dt) 0 0 0) ∧
      MathUtils.det2 (MathUtils.makeMatrix2 (dt * dt) 0 0 0) = 0 ∧
      MathUtils.invertMatrix2 (MathUtils.makeMatrix2 (dt * dt) 0 0 0) = none ∧
      ∀ n, (computeKg kf (n + 2)).mP = none ∧ (computeKg kf (n + 2)).mK = none := by
  obtain ⟨-, hP1, -⟩ := zero_variance_first_step kf dt hA hH hQ hR
  obtain ⟨-, -, gH, gR, -⟩ := computeKg_fields kf 1
  have hS : (computeKg kf 1).mH * MathUtils.makeMatrix3 (dt * dt) dt 0 dt 1 0 0 0 0 *
      (computeKg kf 1).mH.transpose + (computeKg kf 1).mR =
      MathUtils.makeMatrix2 (dt * dt) 0 0 0 := by
    rw [gH, gR, hH, hR]
    ext i j
    fin_cases i <;> fin_cases j <;> simp [new, Fin.sum_univ_three]
  have hd : MathUtils.det2 (MathUtils.makeMatrix2 (dt * dt) 0 0 0) = 0 := by
    simp [MathUtils.det2]
  have hI := MathUtils.invertMatrix2_of_det_eq_zero _ hd
  refine ⟨?_, hd, hI, fun n => ?_⟩
  · rw [innovationCovariance_of_some _ _ hP1]
    exact congrArg some hS
  · have h2 := computeKgStep_of_singular (computeKg kf 1) _ hP1 (by rw [hS]; exact hI)
    have e : computeKg kf (n + 2) = computeKgLoop n (computeKgStep (computeKg kf 1)) := rfl
    rw [e]
    exact computeKgLoop_of_none n _ h2.1 h2.2

end KalmanFilter

/-! ## The claims -/

namespace KalmanFilter

/-- Claim C1: for every filter state whose gain `K` and estimate `E` are real matrices and
every pair of observations, `filter (altitudeObs, accelObs)` returns `Ê + K·(z − H·Ê)` with
`z = [altitudeObs, accelObs]`, `Ê = A·E` the prediction from the pre-call estimate and `K` the
gain held by the filter; the third conjunct spells the update out coordinate by coordinate.
When `K` or `E` holds `inf`/`NaN`, so does the vector returned. In every filter state the
returned vector is the `E` stored after the call. -/
theorem filter_update (kf : KalmanFilter) (K : Matrix 3 2) (E : Vector3_t)
    (altitudeObs accelObs : Real_t) :
    (filter { kf with mK := some K, mE := some E } altitudeObs accelObs).1 =
        some (kf.mA * E +
          K * (MathUtils.makeVector2 altitudeObs accelObs - kf.mH * (kf.mA * E))) ∧
      (filter kf altitudeObs accelObs).2.mE = (filter kf altitudeObs accelObs).1 ∧
      (∀ i : Fin 3,
        ((filter { kf with mK := some K, mE := some E } altitudeObs accelObs).1).map
            (fun r => r.idx i) =
          some ((kf.mA * E).idx i +
            (K.mData i 0 * (altitudeObs - (kf.mH * (kf.mA * E)).idx 0) +
              K.mData i 1 * (accelObs - (kf.mH * (kf.mA * E)).idx 1)))) ∧
      (filter { kf with mK := none } altitudeObs accelObs).1 = none ∧
      (filter { kf with mE := none } altitudeObs accelObs).1 = none := by
  refine ⟨rfl, rfl, fun i => ?_, filter_of_gain_none _ _ _ rfl, filter_of_estimate_none _ _ _ rfl⟩
  simp [filter, Matrix.idx, Fin.sum_univ_two]

/-- Claim C2, refuted as stated: on the freshly constructed filter, one gain/covariance step
takes `P` = identity to a matrix with `P[0][0] = 0` and gives the gain `K[0][0] = 1`, but after
`filter (0, 0)` the stored `P[0][0]` is still `1` and the stored `K[0][0]` is still `0`. -/
theorem filter_does_not_recompute_gain :
    ((specGainCovStep new.mA new.mQ new.mH new.mR (new.mP, new.mK)).1).map
        (fun P => P.mData 0 0) = some 0 ∧
      ((specGainCovStep new.mA new.mQ new.mH new.mR (new.mP, new.mK)).2).map
        (fun K => K.mData 0 0) = some 1 ∧
      ((filter new 0 0).2.mP).map (fun P => P.mData 0 0) = some 1 ∧
      ((filter new 0 0).2.mK).map (fun K => K.mData 0 0) = some 0 ∧
      ((filter new 0 0).2.mP, (filter new 0 0).2.mK) ≠
        specGainCovStep new.mA new.mQ new.mH new.mR (new.mP, new.mK) := by
  have h1 : ((specGainCovStep new.mA new.mQ new.mH new.mR (new.mP, new.mK)).1).map
      (fun P => P.mData 0 0) = some 0 := by
    simp [specGainCovStep, new, MathUtils.invertMatrix2, MathUtils.det2, Fin.sum_univ_three,
      Fin.sum_univ_two]
  have h2 : ((specGainCovStep new.mA new.mQ new.mH new.mR (new.mP, new.mK)).2).map
      (fun K => K.mData 0 0) = some 1 := by
    simp [specGainCovStep, new, MathUtils.invertMatrix2, MathUtils.det2, Fin.sum_univ_three,
      Fin.sum_univ_two]
  have h3 : ((filter new 0 0).2.mP).map (fun P => P.mData 0 0) = some 1 := by
    simp [filter, new]
  have h4 : ((filter new 0 0).2.mK).map (fun K => K.mData 0 0) = some 0 := by
    simp [filter, new]
  refine ⟨h1, h2, h3, h4, fun h => ?_⟩
  have h5 := congrArg
    (fun pk : Option (Matrix 3 3) × Option (Matrix 3 2) => pk.1.map (fun P => P.mData 0 0)) h
  simp only [h3, h1] at h5
  exact one_ne_zero (Option.some.inj h5)

/-- Claim C2, as the code has it: `filter` does not run the gain/covariance step. For every
filter state and observation, the filter after the call differs from the filter before it
only in `E`: the stored `P` and `K` (and `A`, `H`, `Q`, `R`) are those held before the call. -/
theorem filter_keeps_gain_and_covariance (kf : KalmanFilter) (altitudeObs accelObs : Real_t) :
    (filter kf altitudeObs accelObs).2 =
        { kf with mE := (filter kf altitudeObs accelObs).1 } ∧
      (filter kf altitudeObs accelObs).2.mP = kf.mP ∧
      (filter kf altitudeObs accelObs).2.mK = kf.mK ∧
      (filter kf altitudeObs accelObs).2.mA = kf.mA ∧
      (filter kf altitudeObs accelObs).2.mH = kf.mH ∧
      (filter kf altitudeObs accelObs).2.mQ = kf.mQ ∧
      (filter kf altitudeObs accelObs).2.mR = kf.mR :=
  ⟨rfl, rfl, rfl, rfl, rfl, rfl, rfl⟩

/-- Claim C3: for every iteration count `n` and every filter state, `computeKg (n)` leaves
`(P, K)` equal to the result of starting from `P` = the 3×3 identity (and the `K` held before)
and applying `n` times the specification's step `S = H·P·Hᵗ + R`; `K = P·Hᵗ·S⁻¹`;
`P = (I − K·H)·P`; `P = A·P·Aᵗ + Q`, the inversion of a singular `S` included. -/
theorem computeKg_iterates_spec_step (kf : KalmanFilter) (n : Nat) :
    ((computeKg kf n).mP, (computeKg kf n).mK) =
      (specGainCovStep kf.mA kf.mQ kf.mH kf.mR)^[n] (some (Matrix.identity 3), kf.mK) :=
  computeKg_PK kf n

/-- Claim C4: for every iteration count `n`, `computeKg (n)` leaves `E`, `A`, `H`, `Q` and `R`
unchanged; for `n = 0` the filter after the call is the filter before it with `P` replaced by
the 3×3 identity, every other member, `K` included, unchanged. -/
theorem computeKg_frame (kf : KalmanFilter) (n : Nat) :
    ((computeKg kf n).mE = kf.mE ∧ (computeKg kf n).mA = kf.mA ∧ (computeKg kf n).mH = kf.mH ∧
        (computeKg kf n).mQ = kf.mQ ∧ (computeKg kf n).mR = kf.mR) ∧
      computeKg kf 0 = { kf with mP := some (Matrix.identity 3) } := by
  refine ⟨?_, ?_⟩
  · obtain ⟨h1, h2, h3, h4, h5⟩ :=
      computeKgLoop_frame n { kf with mP := some (MathUtils.makeMatrix3 1 0 0 0 1 0 0 0 1) }
    exact ⟨h5, h1, h3, h2, h4⟩
  · simp [computeKg, computeKgLoop, MathUtils.makeMatrix3_identity]

end KalmanFilter

namespace RocketTracker

/-- Claim C5: for every tracker state, with `r` the barometer reading `track` takes, the
altitude `track` passes to the filter is `max r launchpadAltitude` (the launchpad altitude
when `r` is below it, `r` otherwise), so it is never less than the launchpad altitude; the
result and the filter after `track` are those of `filter` on that altitude. -/
theorem track_floors_altitude (x : Collaborators) (t : RocketTracker) (kRunSensors : Bool) :
    (trackObservation x t kRunSensors).1 =
        max (runSensors t kRunSensors).2.getAltitude t.mLpAltitude ∧
      (trackObservation x t kRunSensors).1 =
        (if (runSensors t kRunSensors).2.getAltitude < t.mLpAltitude then t.mLpAltitude
          else (runSensors t kRunSensors).2.getAltitude) ∧
      t.mLpAltitude ≤ (trackObservation x t kRunSensors).1 ∧
      (track x t kRunSensors).1 =
        (t.mKf.filter (max (runSensors t kRunSensors).2.getAltitude t.mLpAltitude)
          (trackObservation x t kRunSensors).2).1 ∧
      (track x t kRunSensors).2.mKf =
        (t.mKf.filter (max (runSensors t kRunSensors).2.getAltitude t.mLpAltitude)
          (trackObservation x t kRunSensors).2).2 := by
  have h : (trackObservation x t kRunSensors).1 =
      max (runSensors t kRunSensors).2.getAltitude t.mLpAltitude := by
    simp only [trackObservation]
    split_ifs with hlt
    · exact (max_eq_right (le_of_lt hlt)).symm
    · exact (max_eq_left (not_lt.mp hlt)).symm
  refine ⟨h, rfl, ?_, ?_, ?_⟩
  · rw [h]; exact le_max_right _ _
  · simp only [track, h]
  · simp only [track, h]

/-- Claim C6, refuted as stated: a configuration with both sensors present and `dt = -1` is
not rejected. Construction completes, and the filter of the tracker has been configured with
that timestep: `A = [[1, -1, 1/2], [0, 1, -1], [0, 0, 1]]`. -/
theorem negative_dt_is_accepted :
    Example.negativeDtConfig.dt ≤ 0 ∧
      ∃ t, RocketTracker.new Example.collaborators Example.negativeDtConfig = some t ∧
        t.mKf.mA = MathUtils.makeMatrix3 1 (-1) (1 / 2) 0 1 (-1) 0 0 1 := by
  refine ⟨by norm_num [Example.negativeDtConfig], _, new_eq Example.collaborators Example.imu
    Example.barometer 2 (-1) 50, ?_⟩
  simp only []
  rw [(KalmanFilter.computeKg_fields _ 50).1, configured_filter]
  norm_num

/-- Claim C6, as the code has it: the constructor makes no check of the timestep. For every
`dt` (zero and negative ones included), with both sensors present and the axis index inside
the vector, construction completes, and the filter of the tracker has been configured with
`setDeltaT (dt)`, `A = [[1, dt, 0.5·dt²], [0, 1, dt], [0, 0, 1]]`, and warmed up. -/
theorem construction_accepts_every_dt (x : Collaborators) (imu : IMUInterface)
    (baro : BarometerInterface) (i : Fin 3) (dt : Real_t) (n : Nat) :
    ∃ t, RocketTracker.new x
          { pImu := some imu, pBarometer := some baro, dt := dt, vertAccelIdx := i.val,
            kgIterations := n } = some t ∧
      t.mKf.mA = MathUtils.makeMatrix3 1 dt (0.5 * dt * dt) 0 1 dt 0 0 1 ∧
      t.mKf = ((KalmanFilter.new.setDeltaT dt).setInitialState t.mLpAltitude 0 0
        |>.setSensorVariance (profileSensors x imu baro i).1.baroVar
          (profileSensors x imu baro i).1.imuVar).computeKg n := by
  refine ⟨_, new_eq x imu baro i dt n, ?_, rfl⟩
  simp only []
  rw [(KalmanFilter.computeKg_fields _ n).1, configured_filter]

/-- Claim C7: for every configuration `(dt, kgIterations)` with both sensors present and the
axis index inside the vector, with `m` the mean and `sb` the standard deviation of the
altitude samples and `si` the standard deviation of the acceleration samples, the constructor
leaves a filter with `A = [[1, dt, 0.5·dt²], [0, 1, dt], [0, 0, 1]]`, `E = (m, 0, 0)`,
`R = diag (sb², si²)`, and `(P, K)` the result of `kgIterations` gain/covariance steps from
the identity with those `A` and `R` (the warm-up `computeKg (kgIterations)`); the launchpad
altitude of the tracker is `m`. -/
theorem constructor_configures_filter (x : Collaborators) (imu : IMUInterface)
    (baro : BarometerInterface) (i : Fin 3) (dt : Real_t) (kgIterations : Nat) :
    ∃ t, RocketTracker.new x
          { pImu := some imu, pBarometer := some baro, dt := dt, vertAccelIdx := i.val,
            kgIterations := kgIterations } = some t ∧
      t.mKf.mA = MathUtils.makeMatrix3 1 dt (0.5 * dt * dt) 0 1 dt 0 0 1 ∧
      t.mKf.mE = some (MathUtils.makeVector3
        (x.getMean (sampleAltitude (History.empty : History numSamples) baro).1.samples) 0 0) ∧
      t.mKf.mR = MathUtils.makeMatrix2
        (x.getStdev (sampleAltitude (History.empty : History numSamples) baro).1.samples ^ 2)
        0 0
        (x.getStdev (sampleAccel (History.empty : History numSamples) imu i).1.samples ^ 2) ∧
      (t.mKf.mP, t.mKf.mK) =
        (specGainCovStep (MathUtils.makeMatrix3 1 dt (0.5 * dt * dt) 0 1 dt 0 0 1)
          (Matrix.fill 0) KalmanFilter.new.mH
          (MathUtils.makeMatrix2
            (x.getStdev (sampleAltitude (History.empty : History numSamples) baro).1.samples ^ 2)
            0 0
            (x.getStdev (sampleAccel (History.empty : History numSamples) imu i).1.samples ^ 2))
          )^[kgIterations] (some (Matrix.identity 3), some Matrix.zero) ∧
      (t.mKf.mP, t.mKf.mK) =
        (((((KalmanFilter.new.setDeltaT dt).setInitialState t.mLpAltitude 0 0).setSensorVariance
          (x.getStdev (sampleAltitude (History.empty : History numSamples) baro).1.samples ^ 2)
          (x.getStdev (sampleAccel (History.empty : History numSamples) imu i).1.samples ^ 2)
          ).computeKg kgIterations).mP,
         ((((KalmanFilter.new.setDeltaT dt).setInitialState t.mLpAltitude 0 0).setSensorVariance
          (x.getStdev (sampleAltitude (History.empty : History numSamples) baro).1.samples ^ 2)
          (x.getStdev (sampleAccel (History.empty : History numSamples) imu i).1.samples ^ 2)
          ).computeKg kgIterations).mK) ∧
      t.mLpAltitude =
        x.getMean (sampleAltitude (History.empty : History numSamples) baro).1.samples := by
  have hb : (profileSensors x imu baro i).1.baroVar =
      x.getStdev (sampleAltitude (History.empty : History numSamples) baro).1.samples ^ 2 := by
    simp only [profileSensors, pow_two]
  have hi : (profileSensors x imu baro i).1.imuVar =
      x.getStdev (sampleAccel (History.empty : History numSamples) imu i).1.samples ^ 2 := by
    simp only [profileSensors, pow_two]
  have hm : (profileSensors x imu baro i).1.lpAlt =
      x.getMean (sampleAltitude (History.empty : History numSamples) baro).1.samples := by
    simp only [profileSensors]
  refine ⟨_, new_eq x imu baro i dt kgIterations, ?_, ?_, ?_, ?_, ?_, ?_⟩
  · simp only []
    rw [(KalmanFilter.computeKg_fields _ kgIterations).1, configured_filter]
  · simp only []
    rw [(KalmanFilter.computeKg_fields _ kgIterations).2.2.2.2, configured_filter, hm]
  · simp only []
    rw [(KalmanFilter.computeKg_fields _ kgIterations).2.2.2.1, configured_filter, hb, hi]
  · simp only []
    rw [KalmanFilter.computeKg_PK, configured_filter, hb, hi]
  · simp only []
    rw [hb, hi]
  · simp only []
    rw [hm]

end RocketTracker

namespace KalmanFilter

/-- Claim C8: for every filter state reached from construction by any sequence of calls and
every `dt`, `setDeltaT (dt)` leaves `A = [[1, dt, 0.5·dt²], [0, 1, dt], [0, 0, 1]]`: it writes
`A[0][1] = dt`, `A[0][2] = 0.5·dt²` and `A[1][2] = dt`, keeps the six other entries of `A` and
every other member; a later `setDeltaT (dt2)` leaves the same filter as `setDeltaT (dt2)`
alone. -/
theorem setDeltaT_transition_matrix (ops : List Op) (dt dt2 : Real_t) :
    ((runOps ops).setDeltaT dt).mA = MathUtils.makeMatrix3 1 dt (0.5 * dt * dt) 0 1 dt 0 0 1 ∧
      (((runOps ops).setDeltaT dt).mA.mData 0 1 = dt ∧
        ((runOps ops).setDeltaT dt).mA.mData 0 2 = 0.5 * dt * dt ∧
        ((runOps ops).setDeltaT dt).mA.mData 1 2 = dt) ∧
      (((runOps ops).setDeltaT dt).mA.mData 0 0 = (runOps ops).mA.mData 0 0 ∧
        ((runOps ops).setDeltaT dt).mA.mData 1 0 = (runOps ops).mA.mData 1 0 ∧
        ((runOps ops).setDeltaT dt).mA.mData 1 1 = (runOps ops).mA.mData 1 1 ∧
        ((runOps ops).setDeltaT dt).mA.mData 2 0 = (runOps ops).mA.mData 2 0 ∧
        ((runOps ops).setDeltaT dt).mA.mData 2 1 = (runOps ops).mA.mData 2 1 ∧
        ((runOps ops).setDeltaT dt).mA.mData 2 2 = (runOps ops).mA.mData 2 2) ∧
      (runOps ops).setDeltaT dt = { runOps ops with mA := ((runOps ops).setDeltaT dt).mA } ∧
      ((runOps ops).setDeltaT dt).setDeltaT dt2 = (runOps ops).setDeltaT dt2 := by
  refine ⟨setDeltaT_mA_of_unit _ dt (runOps_unitUpper ops), ?_, ?_, rfl, ?_⟩
  · simp [setDeltaT]
  · simp [setDeltaT]
  · have hA : (((runOps ops).setDeltaT dt).setDeltaT dt2).mA = ((runOps ops).setDeltaT dt2).mA := by
      ext i j
      fin_cases i <;> fin_cases j <;> simp [setDeltaT]
    simp only [setDeltaT] at hA ⊢
    rw [hA]

/-- Claim C9: in every filter state reached from construction by any sequence of `setDeltaT`,
`setSensorVariance`, `setInitialState`, `computeKg` and `filter` calls, `Q` is the zero matrix,
`H = [[1, 0, 0], [0, 0, 1]]`, so that `H·x = (x[0], x[2])` for every vector `x`, and `R` is
diagonal with the arguments of the most recent `setSensorVariance` call on its diagonal (zero
if there was none). -/
theorem reachable_Q_H_R (ops : List Op) :
    (runOps ops).mQ = Matrix.fill 0 ∧
      (∀ i j, (runOps ops).mH.mData i j =
        if (i = 0 ∧ j = 0) ∨ (i = 1 ∧ j = 2) then 1 else 0) ∧
      (∀ x : Vector3_t, (runOps ops).mH * x = MathUtils.makeVector2 (x.idx 0) (x.idx 2)) ∧
      (runOps ops).mR =
        MathUtils.makeMatrix2 (lastVariance ops).1 0 0 (lastVariance ops).2 := by
  obtain ⟨hQ, hH⟩ := foldl_mQ_mH ops KalmanFilter.new
  have hR := foldl_mR ops KalmanFilter.new (0, 0)
    (by ext i j; fin_cases i <;> fin_cases j <;> simp [KalmanFilter.new])
  refine ⟨hQ, ?_, ?_, hR⟩
  · intro i j
    rw [runOps, hH]
    fin_cases i <;> fin_cases j <;> simp [KalmanFilter.new]
  · intro x
    rw [runOps, hH]
    ext i j
    fin_cases i <;> fin_cases j <;> simp [KalmanFilter.new, Fin.sum_univ_three, Matrix.idx]

end KalmanFilter

namespace RocketTracker

/-- Claim C10: for every barometer and IMU, `profileSensors` returns as barometer variance the
square of the standard deviation of the altitude samples, as IMU variance the square of the
standard deviation of the vertical-acceleration samples and as launchpad altitude the mean of
the altitude samples, the samples being the next `numSamples` readings of each sensor; both
variances, which the constructor hands to `setSensorVariance`, are `≥ 0`. -/
theorem profileSensors_variances (x : Collaborators) (imu : IMUInterface)
    (baro : BarometerInterface) (i : Fin 3) :
    (profileSensors x imu baro i).1.baroVar =
        x.getStdev ((List.range numSamples).map baro.pending) ^ 2 ∧
      (profileSensors x imu baro i).1.imuVar =
        x.getStdev ((List.range numSamples).map
          (fun n => (imu.pending n).vecAccel.idx i)) ^ 2 ∧
      (profileSensors x imu baro i).1.lpAlt =
        x.getMean ((List.range numSamples).map baro.pending) ∧
      0 ≤ (profileSensors x imu baro i).1.baroVar ∧
      0 ≤ (profileSensors x imu baro i).1.imuVar := by
  rw [profileSensors_profile]
  refine ⟨(pow_two _).symm, (pow_two _).symm, rfl, mul_self_nonneg _, mul_self_nonneg _⟩

end RocketTracker

namespace KalmanFilter

open Matrix

end KalmanFilter

namespace MathUtils

/-- Claim C12: for every 2×2 matrix `M` with non-zero determinant, the 2×2 inversion returns
`1/det (M) · [[M11, −M01], [−M10, M00]]`, and `M * inv (M)` (and `inv (M) * M`) is the 2×2
identity. -/
theorem invert2x2_roundtrip (M : Matrix 2 2) (h : det2 M ≠ 0) :
    invertMatrix2 M =
        some (makeMatrix2 (M.mData 1 1 / det2 M) (-M.mData 0 1 / det2 M)
          (-M.mData 1 0 / det2 M) (M.mData 0 0 / det2 M)) ∧
      M * makeMatrix2 (M.mData 1 1 / det2 M) (-M.mData 0 1 / det2 M)
          (-M.mData 1 0 / det2 M) (M.mData 0 0 / det2 M) = Matrix.identity 2 ∧
      makeMatrix2 (M.mData 1 1 / det2 M) (-M.mData 0 1 / det2 M)
          (-M.mData 1 0 / det2 M) (M.mData 0 0 / det2 M) * M = Matrix.identity 2 := by
  have hI : invertMatrix2 M =
      some (makeMatrix2 (M.mData 1 1 / det2 M) (-M.mData 0 1 / det2 M)
        (-M.mData 1 0 / det2 M) (M.mData 0 0 / det2 M)) := by
    rw [invertMatrix2_of_det_ne_zero M h]
    congr 1
    ext i j
    fin_cases i <;> fin_cases j <;> simp <;> ring
  exact ⟨hI, mul_invertMatrix2 hI, invertMatrix2_mul hI⟩

/-- Claim C12, at the matrix of the test: `M = [[1, 11], [−7, 25]]` has determinant `102`,
its inverse is `[[25/102, −11/102], [7/102, 1/102]]`, and `M * inv (M)` is the identity. -/
theorem invert2x2_roundtrip_witness :
    det2 (makeMatrix2 1 11 (-7) 25) ≠ 0 ∧
      invertMatrix2 (makeMatrix2 1 11 (-7) 25) =
        some (makeMatrix2 (25 / 102) (-11 / 102) (7 / 102) (1 / 102)) ∧
      makeMatrix2 1 11 (-7) 25 * makeMatrix2 (25 / 102) (-11 / 102) (7 / 102) (1 / 102) =
        Matrix.identity 2 := by
  have hd : det2 (makeMatrix2 1 11 (-7) 25) = 102 := by
    simp [det2]; norm_num
  have hne : det2 (makeMatrix2 1 11 (-7) 25) ≠ 0 := by rw [hd]; norm_num
  have h := invert2x2_roundtrip (makeMatrix2 1 11 (-7) 25) hne
  have e : makeMatrix2 ((makeMatrix2 1 11 (-7) 25).mData 1 1 / det2 (makeMatrix2 1 11 (-7) 25))
      (-(makeMatrix2 1 11 (-7) 25).mData 0 1 / det2 (makeMatrix2 1 11 (-7) 25))
      (-(makeMatrix2 1 11 (-7) 25).mData 1 0 / det2 (makeMatrix2 1 11 (-7) 25))
      ((makeMatrix2 1 11 (-7) 25).mData 0 0 / det2 (makeMatrix2 1 11 (-7) 25)) =
      makeMatrix2 (25 / 102) (-11 / 102) (7 / 102) (1 / 102) := by
    rw [hd]
    ext i j
    fin_cases i <;> fin_cases j <;> simp
  rw [e] at h
  exact ⟨hne, h.1, h.2.1⟩

end MathUtils

namespace Matrix

/-- Claim C13: for every `R`×`K` matrix `A` and `K`×`C` matrix `B`, `A * B` is the `R`×`C`
matrix with `(A * B)[i][j] = Σ_k A[i][k]·B[k][j]`; on the matrices of the test,
`[[1,2,3],[4,5,6],[7,8,9]] * [[-5,0,10],[2,-4,53],[1,1,7]]` is
`[[2,-5,137],[-4,-14,347],[-10,-23,557]]`. -/
theorem product_is_standard :
    (∀ (R K C : Nat) (A : Matrix R K) (B : Matrix K C) (i : Fin R) (j : Fin C),
        (A * B).mData i j = ∑ k : Fin K, A.mData i k * B.mData k j) ∧
      (∀ (A B : Matrix 3 3) (i j : Fin 3), (A * B).mData i j =
        A.mData i 0 * B.mData 0 j + A.mData i 1 * B.mData 1 j + A.mData i 2 * B.mData 2 j) ∧
      MathUtils.makeMatrix3 1 2 3 4 5 6 7 8 9 * MathUtils.makeMatrix3 (-5) 0 10 2 (-4) 53 1 1 7 =
        MathUtils.makeMatrix3 2 (-5) 137 (-4) (-14) 347 (-10) (-23) 557 := by
  refine ⟨fun R K C A B i j => rfl, fun A B i j => ?_, ?_⟩
  · simp [Fin.sum_univ_three]
  · ext i j
    fin_cases i <;> fin_cases j <;> simp [Fin.sum_univ_three] <;> norm_num

/-- Claim C14: for all matrices `A` (`R`×`K`) and `B` (`K`×`C`), `transpose (M)[j][i] = M[i][j]`
and `(A * B)ᵗ = Bᵗ * Aᵗ`; on the matrix of the test, the transpose of `[[1,2,3],[4,5,6]]` has
rows `(1,4)`, `(2,5)`, `(3,6)`. -/
theorem transpose_product :
    (∀ (R C : Nat) (M : Matrix R C) (i : Fin R) (j : Fin C),
        M.transpose.mData j i = M.mData i j) ∧
      (∀ (R K C : Nat) (A : Matrix R K) (B : Matrix K C),
        (A * B).transpose = B.transpose * A.transpose) ∧
      ∀ a b c d e f : Real_t,
        (((((((Matrix.zero : Matrix 2 3).set 0 0 a).set 0 1 b).set 0 2 c).set 1 0 d).set 1 1
          e).set 1 2 f).transpose =
        ((((((Matrix.zero : Matrix 3 2).set 0 0 a).set 0 1 d).set 1 0 b).set 1 1 e).set 2 0
          c).set 2 1 f := by
  refine ⟨fun R C M i j => rfl, fun R K C A B => ?_, fun a b c d e f => ?_⟩
  · ext i j
    simp only [transpose_mData, mul_mData]
    exact Finset.sum_congr rfl fun k _ => mul_comm _ _
  · ext i j
    fin_cases i <;> fin_cases j <;> simp

end Matrix

namespace RocketTracker

/-- Claim C15: `getDefaultConfig` returns a configuration with both sensor pointers null,
`dt = 0.1`, vertical-axis index `2` and `50` Kalman-gain iterations; its `dt` is positive and
its axis index is one of `0`, `1`, `2`. -/
theorem default_config_values :
    getDefaultConfig.pImu.isNone = true ∧ getDefaultConfig.pBarometer.isNone = true ∧
      getDefaultConfig.dt = 1 / 10 ∧ getDefaultConfig.vertAccelIdx = 2 ∧
      getDefaultConfig.kgIterations = 50 ∧ 0 < getDefaultConfig.dt ∧
      getDefaultConfig.vertAccelIdx < 3 := by
  refine ⟨rfl, rfl, ?_, rfl, rfl, ?_, ?_⟩
  · simp only [getDefaultConfig]; norm_num
  · simp only [getDefaultConfig]; norm_num
  · simp only [getDefaultConfig]; norm_num

end RocketTracker

namespace KalmanFilter

open Matrix

/-- Claim C18: with both variances zero, which satisfies the precondition of
`setSensorVariance`, and any `dt`: the first warm-up step inverts the 2×2 identity
(determinant `1`) and leaves `P = [[dt², dt, 0], [dt, 1, 0], [0, 0, 0]]`; the matrix
`S = H·P·Hᵗ + R` that the second step of `computeKg (n)`, `n ≥ 2`, inverts is
`[[dt², 0], [0, 0]]`, of determinant `0`: the inversion has no real result, and `P` and `K`
hold `inf`/`NaN` after `computeKg (n)`. -/
theorem zero_variance_singular (dt : Real_t) :
    innovationCovariance (((new.setDeltaT dt).setSensorVariance 0 0).computeKg 0) =
        some (identity 2) ∧
      MathUtils.det2 (identity 2) = 1 ∧
      (((new.setDeltaT dt).setSensorVariance 0 0).computeKg 1).mP =
        some (MathUtils.makeMatrix3 (dt * dt) dt 0 dt 1 0 0 0 0) ∧
      innovationCovariance (((new.setDeltaT dt).setSensorVariance 0 0).computeKg 1) =
        some (MathUtils.makeMatrix2 (dt * dt) 0 0 0) ∧
      MathUtils.det2 (MathUtils.makeMatrix2 (dt * dt) 0 0 0) = 0 ∧
      MathUtils.invertMatrix2 (MathUtils.makeMatrix2 (dt * dt) 0 0 0) = none ∧
      ∀ n : Nat,
        ((new.setDeltaT dt).setSensorVariance 0 0).computeKg (n + 2) =
          computeKgLoop n
            (computeKgStep (((new.setDeltaT dt).setSensorVariance 0 0).computeKg 1)) ∧
        (((new.setDeltaT dt).setSensorVariance 0 0).computeKg (n + 2)).mP = none ∧
        (((new.setDeltaT dt).setSensorVariance 0 0).computeKg (n + 2)).mK = none := by
  obtain ⟨mH, mQ, mR⟩ := runOps_model [.setDeltaT dt, .setSensorVariance 0 0]
  have mA : ((new.setDeltaT dt).setSensorVariance 0 0).mA =
      MathUtils.makeMatrix3 1 dt (0.5 * dt * dt) 0 1 dt 0 0 1 :=
    setDeltaT_mA_of_unit new dt (by simp [new])
  have mH2 : ((new.setDeltaT dt).setSensorVariance 0 0).mH = new.mH := mH
  have mQ2 : ((new.setDeltaT dt).setSensorVariance 0 0).mQ = fill 0 := mQ
  have mR2 : ((new.setDeltaT dt).setSensorVariance 0 0).mR = MathUtils.makeMatrix2 0 0 0 0 := mR
  obtain ⟨f1, f2, -⟩ := zero_variance_first_step _ dt mA mH2 mQ2 mR2
  obtain ⟨s1, s2, s3, s4⟩ := zero_variance_second_step _ dt mA mH2 mQ2 mR2
  exact ⟨f1, by simp [MathUtils.det2], f2, s1, s2, s3, fun n => ⟨rfl, (s4 n).1, (s4 n).2⟩⟩

/-- Claim C20: for every `n ≥ 1`, two filters that agree on `A`, `R`, `H` and `Q` hold the same
`P` and `K` after `computeKg (n)`, whatever their `E`, `P` and `K` before the call; and
`computeKg (n)` followed by `computeKg (n)` leaves the state that one `computeKg (n)` leaves. -/
theorem computeKg_depends_on_model_only (kf1 kf2 : KalmanFilter) (n : Nat) (hn : 1 ≤ n)
    (hA : kf1.mA = kf2.mA) (hR : kf1.mR = kf2.mR) (hH : kf1.mH = kf2.mH)
    (hQ : kf1.mQ = kf2.mQ) :
    (computeKg kf1 n).mP = (computeKg kf2 n).mP ∧ (computeKg kf1 n).mK = (computeKg kf2 n).mK ∧
      computeKg (computeKg kf1 n) n = computeKg kf1 n := by
  obtain ⟨m, rfl⟩ : ∃ m, n = m + 1 := ⟨n - 1, by omega⟩
  have h := computeKg_PK_congr kf1 kf2 m hA hQ hH hR
  exact ⟨congrArg Prod.fst h, congrArg Prod.snd h, computeKg_twice kf1 (m + 1)⟩

/-- Claim C20, at two filters that differ in `E`, `P` and `K`: the freshly constructed filter
and a filter that has been given another initial state and another warm-up, both with
`setDeltaT (1)` and variances `(1, 1)`, hold the same `P` and `K` after `computeKg (1)`. -/
theorem computeKg_depends_on_model_only_witness :
    (1 ≤ 1) ∧
      (computeKg ((new.setDeltaT 1).setSensorVariance 1 1) 1).mP =
        (computeKg ((((new.setDeltaT 1).setSensorVariance 1 1).setInitialState 5 6 7).computeKg
          2) 1).mP ∧
      (computeKg ((new.setDeltaT 1).setSensorVariance 1 1) 1).mK =
        (computeKg ((((new.setDeltaT 1).setSensorVariance 1 1).setInitialState 5 6 7).computeKg
          2) 1).mK := by
  have hf := computeKg_fields
    (((new.setDeltaT 1).setSensorVariance 1 1).setInitialState 5 6 7) 2
  have h := computeKg_depends_on_model_only ((new.setDeltaT 1).setSensorVariance 1 1)
    ((((new.setDeltaT 1).setSensorVariance 1 1).setInitialState 5 6 7).computeKg 2) 1
    (le_refl 1) hf.1.symm hf.2.2.2.1.symm hf.2.2.1.symm hf.2.1.symm
  exact ⟨le_refl 1, h.1, h.2.1⟩

end KalmanFilter

end Photic
